import Mathlib

/-!
Verification of the oneswap-deployer client (Python) against its specification.

Shallow embedding conventions:
* Python `str` is modelled as a list of unicode characters (`PyStr`);
* Python `int` is modelled as `Nat`/`Int` (arbitrary precision, as in Python);
* Python `dict` is modelled as an association list whose insert replaces the
  binding of an existing key in place (CPython update semantics);
* `bytes` values are lists of `Nat` (each < 256);
* raised exceptions are modelled with `Except`;
* network I/O is modelled by passing the transport's responses explicitly
  (a deterministic transcript); the RPC calls a function performs are
  collected in an explicit trace.
-/

namespace Oneswap

/-- Python strings: sequences of unicode scalar values. -/
abbrev PyStr := List Char

/-- Convenience conversion from a Lean string literal. -/
def pyStr (s : String) : PyStr := s.data

/-! ## oneswap_deployer/utils.py : add_0lt / remove_0x -/

/-- The chain's textual address tag `0lt`. -/
def oltTag : PyStr := pyStr "0lt"

/-- `add_0lt` from `src/oneswap_deployer/utils.py` lines 37-40:
returns the address unchanged when it already starts with `0lt`,
otherwise prepends `0lt`. -/
def add_0lt (address : PyStr) : PyStr :=
  if oltTag.isPrefixOf address then address else oltTag ++ address

/-- `remove_0x` from `src/oneswap_deployer/utils.py` lines 43-46. -/
def remove_0x (address : PyStr) : PyStr :=
  if (pyStr "0x").isPrefixOf address then address.drop 2 else address

/-! ## State store and smart_deploy (src/oneswap_deployer/uniswap.py lines 131-151)

`UniswapManager._state` is a JSON dictionary mapping a logical contract name
to `{address, tx_hash}`; `update_state` writes the whole mapping back to the
state file synchronously.  `smart_deploy` consults the mapping before ever
talking to the chain.  The result of `client.execute_smart_contract`
(a pair `(address, tx_hash)`) is passed in explicitly; the `Nat` component of
the result counts how many times that deploy call was issued. -/

/-- A persisted deployment record `{address, tx_hash}`. -/
structure DeployRecord where
  address : PyStr
  tx_hash : PyStr
  deriving DecidableEq, Repr

/-- The persisted state mapping: logical contract name to record. -/
abbrev DeployState := List (PyStr × DeployRecord)

/-- Dictionary lookup (`key in dict` / `dict[key]`); a dict holds one binding
per key, so first-match lookup is exact. -/
def stateGet : DeployState → PyStr → Option DeployRecord
  | [], _ => none
  | (k, v) :: tl, key => if k = key then some v else stateGet tl key

/-- `update_state` (uniswap.py lines 91-94): `self._state[key] = value` and a
synchronous dump of the whole mapping to the state file.  CPython dict update
replaces the binding of an existing key in place, and appends a fresh key. -/
def update_state : DeployState → PyStr → DeployRecord → DeployState
  | [], key, value => [(key, value)]
  | (k, v) :: tl, key, value =>
      if k = key then (key, value) :: tl else (k, v) :: update_state tl key value

/-- `smart_deploy` (uniswap.py lines 131-151).  `chainDeploy` is the value the
call `await self.client.execute_smart_contract(abi_name, 'constructor', params,
data)` would produce.  Returns the state after the call, the address handed
back, and the number of times the chain deploy was invoked. -/
def smart_deploy (st : DeployState) (abi_name : PyStr) (chainDeploy : PyStr × PyStr) :
    DeployState × PyStr × Nat :=
  match stateGet st abi_name with
  | some contract_data => (st, contract_data.address, 0)
  | none =>
      let address := chainDeploy.1
      let tx_hash := chainDeploy.2
      (update_state st abi_name ⟨address, tx_hash⟩, address, 1)

/-! ### Lemmas about the state dictionary -/

theorem stateGet_update_self (st : DeployState) (k : PyStr) (v : DeployRecord) :
    stateGet (update_state st k v) k = some v := by
  induction st with
  | nil => simp [update_state, stateGet]
  | cons hd tl ih =>
      obtain ⟨k', v'⟩ := hd
      by_cases h : k' = k
      · simp [update_state, stateGet, h]
      · simp [update_state, stateGet, h, ih]

/-- C1.  `smart_deploy` twice with the same key: the underlying deploy runs at
most once over the two calls; a key already present short-circuits with the
cached address and zero chain calls; a first-time deploy persists
`{address, tx_hash}` under the key; the second call always reuses the cache
(zero chain calls) and returns the same address as the first. -/
theorem smart_deploy_idempotent (st : DeployState) (key : PyStr)
    (d1 d2 : PyStr × PyStr) :
    (smart_deploy st key d1).2.2 +
      (smart_deploy (smart_deploy st key d1).1 key d2).2.2 ≤ 1 ∧
    (smart_deploy (smart_deploy st key d1).1 key d2).2.2 = 0 ∧
    (smart_deploy (smart_deploy st key d1).1 key d2).2.1 =
      (smart_deploy st key d1).2.1 ∧
    (∀ rec, stateGet st key = some rec →
      smart_deploy st key d1 = (st, rec.address, 0)) ∧
    (stateGet st key = none →
      (smart_deploy st key d1).1 = update_state st key ⟨d1.1, d1.2⟩ ∧
      (smart_deploy st key d1).2.1 = d1.1 ∧
      (smart_deploy st key d1).2.2 = 1) := by
  cases h : stateGet st key with
  | some rec =>
      refine ⟨?_, ?_, ?_, ?_, ?_⟩ <;>
        simp [smart_deploy, h]
  | none =>
      have h2 : stateGet (update_state st key ⟨d1.1, d1.2⟩) key =
          some ⟨d1.1, d1.2⟩ := stateGet_update_self st key _
      refine ⟨?_, ?_, ?_, ?_, ?_⟩ <;>
        simp [smart_deploy, h, h2]

/-- Witness for C1 at a concrete state: an empty state, then a seeded one. -/
theorem smart_deploy_idempotent_witness :
    (smart_deploy [] (pyStr "WOLT") (pyStr "aa", pyStr "h1")).2.2 +
      (smart_deploy (smart_deploy [] (pyStr "WOLT") (pyStr "aa", pyStr "h1")).1
        (pyStr "WOLT") (pyStr "bb", pyStr "h2")).2.2 ≤ 1 ∧
    stateGet [] (pyStr "WOLT") = none ∧
    (smart_deploy [] (pyStr "WOLT") (pyStr "aa", pyStr "h1")).1 =
      update_state [] (pyStr "WOLT") ⟨pyStr "aa", pyStr "h1"⟩ := by
  refine ⟨(smart_deploy_idempotent [] (pyStr "WOLT")
    (pyStr "aa", pyStr "h1") (pyStr "bb", pyStr "h2")).1, rfl, ?_⟩
  exact ((smart_deploy_idempotent [] (pyStr "WOLT")
    (pyStr "aa", pyStr "h1") (pyStr "bb", pyStr "h2")).2.2.2.2 rfl).1

/-! ## Python exceptions that the embedded code can raise -/

inductive PyErr where
  /-- `bytes.decode()` on data that is not valid UTF-8. -/
  | unicodeDecodeError
  /-- `base64.b64decode` on malformed base64 input. -/
  | binasciiError
  /-- `sys.exit(1)`. -/
  | sysExit
  /-- a failed `assert`, with its message. -/
  | assertionError (msg : PyStr)
  /-- `ProtocolAPIError` raised by `Client.call_method`. -/
  | protocolAPIError
  /-- `ValueError` (raised by `Web3.toWei` on out-of-range results). -/
  | valueError
  deriving DecidableEq, Repr

/-! ## base64 / UTF-8 / hex codecs used by parse_events

`base64.b64decode(s)` (default `validate=False`): characters outside the
base64 alphabet and `=` are discarded, then the remaining text must be
well-formed quads (padding `=` only at the end); the result is a byte string.
`bytes.decode()` is strict UTF-8; `binascii.hexlify` renders each byte as two
lowercase hex digits. -/

/-- Value of a base64 alphabet character. -/
def b64val (c : Char) : Option Nat :=
  if 'A' ≤ c ∧ c ≤ 'Z' then some (c.toNat - 65)
  else if 'a' ≤ c ∧ c ≤ 'z' then some (c.toNat - 71)
  else if '0' ≤ c ∧ c ≤ '9' then some (c.toNat + 4)
  else if c = '+' then some 62
  else if c = '/' then some 63
  else none

/-- Decode a base64 text already filtered to alphabet characters and `=`,
processing four characters at a time; `=` padding is accepted only at the
very end.  `none` models `binascii.Error`. -/
def b64quads : List Char → Option (List Nat)
  | [] => some []
  | a :: b :: c :: d :: rest => do
      let va ← b64val a
      let vb ← b64val b
      if c = '=' then
        if d = '=' ∧ rest = [] then pure [va * 4 + vb / 16] else none
      else do
        let vc ← b64val c
        if d = '=' then
          if rest = [] then pure [va * 4 + vb / 16, vb % 16 * 16 + vc / 4] else none
        else do
          let vd ← b64val d
          let tl ← b64quads rest
          pure ((va * 4 + vb / 16) :: (vb % 16 * 16 + vc / 4) :: (vc % 4 * 64 + vd) :: tl)
  | _ => none

/-- `base64.b64decode` with the default lenient alphabet filtering. -/
def b64decode (s : PyStr) : Option (List Nat) :=
  b64quads (s.filter (fun c => (b64val c).isSome || c = '='))

/-- A UTF-8 continuation byte. -/
def utf8Cont (b : Nat) : Bool := 0x80 ≤ b ∧ b ≤ 0xBF

/-- Strict UTF-8 decoding (CPython `bytes.decode()`): rejects overlong forms,
surrogates and code points above `0x10FFFF`. -/
def utf8Decode : List Nat → Option (List Char)
  | [] => some []
  | b :: bs =>
    if b ≤ 0x7F then (utf8Decode bs).map (fun cs => Char.ofNat b :: cs)
    else if b < 0xC2 then none
    else if b ≤ 0xDF then
      match bs with
      | b1 :: bs' =>
          if utf8Cont b1 then
            (utf8Decode bs').map (fun cs =>
              Char.ofNat ((b - 0xC0) * 64 + (b1 - 0x80)) :: cs)
          else none
      | [] => none
    else if b ≤ 0xEF then
      match bs with
      | b1 :: b2 :: bs' =>
          if utf8Cont b1 ∧ utf8Cont b2 ∧
              (b = 0xE0 → 0xA0 ≤ b1) ∧ (b = 0xED → b1 ≤ 0x9F) then
            (utf8Decode bs').map (fun cs =>
              Char.ofNat ((b - 0xE0) * 4096 + (b1 - 0x80) * 64 + (b2 - 0x80)) :: cs)
          else none
      | _ => none
    else if b ≤ 0xF4 then
      match bs with
      | b1 :: b2 :: b3 :: bs' =>
          if utf8Cont b1 ∧ utf8Cont b2 ∧ utf8Cont b3 ∧
              (b = 0xF0 → 0x90 ≤ b1) ∧ (b = 0xF4 → b1 ≤ 0x8F) then
            (utf8Decode bs').map (fun cs =>
              Char.ofNat ((b - 0xF0) * 262144 + (b1 - 0x80) * 4096 +
                (b2 - 0x80) * 64 + (b3 - 0x80)) :: cs)
          else none
      | _ => none
    else none

/-- One lowercase hex digit. -/
def hexDigit (n : Nat) : Char :=
  if n < 10 then Char.ofNat (48 + n) else Char.ofNat (87 + n)

/-- `binascii.hexlify(...).decode()`: two lowercase hex digits per byte. -/
def hexlify (bs : List Nat) : PyStr :=
  bs.foldr (fun b acc => hexDigit (b / 16) :: hexDigit (b % 16) :: acc) []

/-! ## parse_events (src/oneswap_deployer/utils.py lines 96-108)

Events are attribute bags; the loop accumulates a flat dict.  The key decode
`base64.b64decode(attribute['key']).decode()` is *not* protected by the
`try`; only the value decode catches `UnicodeDecodeError` and falls back to
hex.  An empty (falsy) value is kept as is. -/

instance {ε α : Type _} [DecidableEq ε] [DecidableEq α] :
    DecidableEq (Except ε α) := fun x y =>
  match x, y with
  | .ok a, .ok b =>
      if h : a = b then isTrue (by rw [h])
      else isFalse (by intro hh; cases hh; exact h rfl)
  | .ok _, .error _ => isFalse (by intro hh; cases hh)
  | .error _, .ok _ => isFalse (by intro hh; cases hh)
  | .error e, .error f =>
      if h : e = f then isTrue (by rw [h])
      else isFalse (by intro hh; cases hh; exact h rfl)

/-- A transaction event attribute as delivered by `query.Tx`. -/
structure EventAttribute where
  key : PyStr
  value : PyStr
  deriving DecidableEq, Repr

/-- A transaction event: a bag of attributes. -/
structure Event where
  attributes : List EventAttribute
  deriving DecidableEq, Repr

/-- The flat mapping produced by `parse_events`. -/
abbrev EventDict := List (PyStr × PyStr)

/-- Dict lookup for the event mapping. -/
def dictGet : EventDict → PyStr → Option PyStr
  | [], _ => none
  | (k, v) :: tl, key => if k = key then some v else dictGet tl key

/-- Dict assignment `data[key] = value` for the event mapping. -/
def dictSet : EventDict → PyStr → PyStr → EventDict
  | [], key, value => [(key, value)]
  | (k, v) :: tl, key, value =>
      if k = key then (key, value) :: tl else (k, v) :: dictSet tl key value

/-- `base64.b64decode(attribute['key']).decode()` — unguarded. -/
def decodeKey (k : PyStr) : Except PyErr PyStr :=
  match b64decode k with
  | none => .error .binasciiError
  | some bs =>
      match utf8Decode bs with
      | none => .error .unicodeDecodeError
      | some cs => .ok cs

/-- The value branch of the loop body: a falsy (empty) value is kept; a
non-empty value is base64-decoded (errors uncaught) and UTF-8-decoded with a
hex fallback on `UnicodeDecodeError`. -/
def decodeValue (v : PyStr) : Except PyErr PyStr :=
  if v = [] then .ok v
  else
    match b64decode v with
    | none => .error .binasciiError
    | some bs =>
        match utf8Decode bs with
        | some cs => .ok cs
        | none => .ok (hexlify bs)

/-- The inner `for attribute in event['attributes']` loop. -/
def parseAttributes (d : EventDict) : List EventAttribute → Except PyErr EventDict
  | [] => .ok d
  | a :: rest =>
      match decodeKey a.key with
      | .error e => .error e
      | .ok key =>
          match decodeValue a.value with
          | .error e => .error e
          | .ok value => parseAttributes (dictSet d key value) rest

/-- The outer `for event in events` loop. -/
def parseEventsFrom (d : EventDict) : List Event → Except PyErr EventDict
  | [] => .ok d
  | ev :: rest =>
      match parseAttributes d ev.attributes with
      | .error e => .error e
      | .ok d' => parseEventsFrom d' rest

/-- `parse_events` (utils.py lines 96-108, identically deploy.py lines
130-142). -/
def parse_events (events : List Event) : Except PyErr EventDict :=
  parseEventsFrom [] events

/-- All attributes of an event list, in iteration order. -/
def allAttributes (events : List Event) : List EventAttribute :=
  (events.map (fun e => e.attributes)).flatten

/-! ## C8: parse_events as a flat key-to-value mapping -/

/-- Whether an attribute's decoded key equals `k`. -/
def keyMatches (k : PyStr) (a : EventAttribute) : Bool :=
  match decodeKey a.key with
  | .ok k' => k' = k
  | .error _ => false

/-- The mapping the specification describes: the value bound to `k` is the
rendering (UTF-8 when possible, else hex — `decodeValue`) of the value of the
*last* attribute whose decoded key is `k`. -/
def lastRendering (events : List Event) (k : PyStr) : Option PyStr :=
  match (allAttributes events).reverse.find? (keyMatches k) with
  | some a => (decodeValue a.value).toOption
  | none => none

theorem dictGet_dictSet (d : EventDict) (k : PyStr) (v : PyStr) (k' : PyStr) :
    dictGet (dictSet d k v) k' = if k = k' then some v else dictGet d k' := by
  induction d with
  | nil => simp [dictSet, dictGet]
  | cons hd tl ih =>
      obtain ⟨k0, v0⟩ := hd
      by_cases h : k0 = k
      · subst h
        by_cases h' : k0 = k'
        · simp [dictSet, dictGet, h']
        · simp [dictSet, dictGet, h']
      · by_cases h' : k0 = k'
        · subst h'
          have hkk : ¬(k = k0) := fun hh => h hh.symm
          simp [dictSet, dictGet, h, hkk]
        · simp [dictSet, dictGet, h, h', ih]

theorem parseAttributes_lookup (attrs : List EventAttribute) :
    ∀ (d d' : EventDict), parseAttributes d attrs = .ok d' →
    ∀ k, dictGet d' k =
      match attrs.reverse.find? (keyMatches k) with
      | some a => (decodeValue a.value).toOption
      | none => dictGet d k := by
  induction attrs with
  | nil =>
      intro d d' h k
      simp only [parseAttributes] at h
      cases h
      simp
  | cons a rest ih =>
      intro d d' h k
      simp only [parseAttributes] at h
      cases hk : decodeKey a.key with
      | error e => rw [hk] at h; cases h
      | ok ka =>
          rw [hk] at h
          cases hv : decodeValue a.value with
          | error e => rw [hv] at h; cases h
          | ok va =>
              rw [hv] at h
              have := ih (dictSet d ka va) d' h k
              rw [this, List.reverse_cons, List.find?_append]
              cases hfind : rest.reverse.find? (keyMatches k) with
              | some a2 => simp [Option.orElse]
              | none =>
                  simp only [Option.orElse, Option.none_orElse]
                  have hkm : keyMatches k a = decide (ka = k) := by
                    simp [keyMatches, hk]
                  by_cases hkk : ka = k
                  · subst hkk
                    simp [List.find?, hkm, hv, dictGet_dictSet, Except.toOption]
                  · simp [List.find?, hkm, hkk, dictGet_dictSet]

theorem parseEventsFrom_lookup (events : List Event) :
    ∀ (d d' : EventDict), parseEventsFrom d events = .ok d' →
    ∀ k, dictGet d' k =
      match (allAttributes events).reverse.find? (keyMatches k) with
      | some a => (decodeValue a.value).toOption
      | none => dictGet d k := by
  induction events with
  | nil =>
      intro d d' h k
      simp only [parseEventsFrom] at h
      cases h
      simp [allAttributes]
  | cons ev rest ih =>
      intro d d' h k
      simp only [parseEventsFrom] at h
      cases hev : parseAttributes d ev.attributes with
      | error e => rw [hev] at h; cases h
      | ok d1 =>
          rw [hev] at h
          have hrest := ih d1 d' h k
          have hattr := parseAttributes_lookup ev.attributes d d1 hev k
          have hall : allAttributes (ev :: rest) =
              ev.attributes ++ allAttributes rest := by
            simp [allAttributes]
          rw [hrest, hall, List.reverse_append, List.find?_append]
          cases hfind : (allAttributes rest).reverse.find? (keyMatches k) with
          | some a2 => simp [Option.orElse]
          | none => simp [Option.orElse, hattr]

/-- An attribute whose key and value both decode without an exception. -/
def AttrOk (a : EventAttribute) : Prop :=
  (∃ ka, decodeKey a.key = .ok ka) ∧ (∃ va, decodeValue a.value = .ok va)

theorem parseAttributes_attrOk (attrs : List EventAttribute) :
    ∀ (d d' : EventDict), parseAttributes d attrs = .ok d' →
    ∀ a ∈ attrs, AttrOk a := by
  induction attrs with
  | nil => intro d d' _ a ha; cases ha
  | cons a0 rest ih =>
      intro d d' h a ha
      simp only [parseAttributes] at h
      cases hk : decodeKey a0.key with
      | error e => rw [hk] at h; cases h
      | ok ka =>
          rw [hk] at h
          cases hv : decodeValue a0.value with
          | error e => rw [hv] at h; cases h
          | ok va =>
              rw [hv] at h
              rcases List.mem_cons.mp ha with rfl | hmem
              · exact ⟨⟨ka, hk⟩, ⟨va, hv⟩⟩
              · exact ih _ _ h a hmem

theorem parseEventsFrom_attrOk (events : List Event) :
    ∀ (d d' : EventDict), parseEventsFrom d events = .ok d' →
    ∀ a ∈ allAttributes events, AttrOk a := by
  induction events with
  | nil => intro d d' _ a ha; simp [allAttributes] at ha
  | cons ev rest ih =>
      intro d d' h a ha
      simp only [parseEventsFrom] at h
      cases hev : parseAttributes d ev.attributes with
      | error e => rw [hev] at h; cases h
      | ok d1 =>
          rw [hev] at h
          have : allAttributes (ev :: rest) =
              ev.attributes ++ allAttributes rest := by simp [allAttributes]
          rw [this] at ha
          rcases List.mem_append.mp ha with hmem | hmem
          · exact parseAttributes_attrOk ev.attributes d d1 hev a hmem
          · exact ih d1 d' h a hmem

/-- C8 counterexample: an attribute whose key is the base64 encoding of the
byte `0xFF` (not valid UTF-8).  The claim calls for a hex rendering and a
returned mapping; `parse_events` instead raises `UnicodeDecodeError`, because
only *values* enjoy the hex fallback. -/
theorem parse_events_key_not_renderable :
    parse_events [⟨[⟨pyStr "/w==", []⟩]⟩] = .error .unicodeDecodeError := by
  decide

/-- C8 (amended).  When `parse_events` returns a mapping (in particular every
attribute key is base64 text decoding to valid UTF-8 — keys have *no* hex
fallback, a non-UTF-8 key raises instead): the result binds each key to the
rendering of the value of the last attribute carrying that key, values being
base64-decoded and rendered as UTF-8 when possible and as lowercase hex
otherwise (an empty value is kept as is). -/
theorem parse_events_flat_mapping (events : List Event) (d : EventDict)
    (h : parse_events events = .ok d) :
    (∀ k, dictGet d k = lastRendering events k) ∧
    (∀ a ∈ allAttributes events, AttrOk a) ∧
    (∀ (v : PyStr) (bs : List Nat), v ≠ [] → b64decode v = some bs →
      (∀ cs, utf8Decode bs = some cs → decodeValue v = .ok cs) ∧
      (utf8Decode bs = none → decodeValue v = .ok (hexlify bs))) := by
  refine ⟨?_, parseEventsFrom_attrOk events [] d h, ?_⟩
  · intro k
    have := parseEventsFrom_lookup events [] d h k
    rw [this, lastRendering]
    cases (allAttributes events).reverse.find? (keyMatches k) with
    | some a => rfl
    | none => simp [dictGet]
  · intro v bs hv hbs
    constructor
    · intro cs hcs
      simp [decodeValue, hv, hbs, hcs]
    · intro hcs
      simp [decodeValue, hv, hbs, hcs]

/-- Witness for C8 (amended) at a concrete event list: the key `a` is written
twice, the second value (`0xFF`) is not UTF-8 and is rendered as hex `ff`. -/
theorem parse_events_flat_mapping_witness :
    parse_events [⟨[⟨pyStr "YQ==", pyStr "eA=="⟩]⟩, ⟨[⟨pyStr "YQ==", pyStr "/w=="⟩]⟩] =
      .ok [(pyStr "a", pyStr "ff")] ∧
    dictGet [(pyStr "a", pyStr "ff")] (pyStr "a") =
      lastRendering [⟨[⟨pyStr "YQ==", pyStr "eA=="⟩]⟩, ⟨[⟨pyStr "YQ==", pyStr "/w=="⟩]⟩]
        (pyStr "a") ∧
    lastRendering [⟨[⟨pyStr "YQ==", pyStr "eA=="⟩]⟩, ⟨[⟨pyStr "YQ==", pyStr "/w=="⟩]⟩]
      (pyStr "a") = some (pyStr "ff") := by
  refine ⟨by decide, ?_, by decide⟩
  exact (parse_events_flat_mapping _ _ (by decide)).1 (pyStr "a")

/-! ## Client.wait_for_tx (src/oneswap_deployer/client.py lines 87-120)

The transport is a deterministic transcript: the `i`-th `query.Tx` call
returns `transport i`, either a JSON-RPC level `error` (transaction not yet
mined) or a `tx_result`.  A malformed success response (missing nested keys)
is outside the model: a success carries a `TxResult`.  The model returns how
many `query.Tx` polls were issued, how many one-second sleeps were performed,
and the function's outcome. -/

/-- The `error` member of a JSON-RPC response. -/
structure RpcError where
  message : PyStr
  deriving DecidableEq, Repr

/-- The decoded `result.result.tx_result` member of a `query.Tx` response. -/
structure TxResult where
  code : Nat
  log : PyStr
  gasUsed : PyStr
  gasWanted : PyStr
  events : List Event
  deriving DecidableEq, Repr

/-- A `query.Tx` response. -/
abbrev TxResp := Except RpcError TxResult

/-- How a call of `wait_for_tx` ends. -/
inductive WaitOutcome where
  /-- returns the parsed events. -/
  | events (m : EventDict)
  /-- raises `WaitError` with the given message. -/
  | waitError (msg : PyStr)
  /-- an exception escaping `parse_events` (not a `WaitError`). -/
  | pyError (e : PyErr)
  /-- `UnboundLocalError`: with `repeat_count = 0` the loop body never runs
  and `resp` is read before assignment. -/
  | unboundLocal
  deriving DecidableEq, Repr

/-- Polls issued, seconds slept, and the outcome. -/
structure WaitRun where
  polls : Nat
  sleeps : Nat
  outcome : WaitOutcome
  deriving DecidableEq, Repr

def msgBroadcastFailed (txHash msg : PyStr) : PyStr :=
  pyStr "Failed to broadcast tx (" ++ txHash ++ pyStr "), details: " ++ msg

def msgExecFailed (txHash log : PyStr) : PyStr :=
  pyStr "Failed to execute tx (" ++ txHash ++ pyStr "), details: " ++ log

def msgVmFailed (txHash details : PyStr) : PyStr :=
  pyStr "Failed to execute vm (" ++ txHash ++ pyStr "), details: " ++ details

def txErrorKey : PyStr := pyStr "tx.error"

/-- The `while repeat_count:` polling loop (client.py lines 91-103): each
iteration issues one `query.Tx`; a response without `error` breaks out; an
error response sleeps one second and decrements the budget.  Returns
(polls, sleeps, last response if any poll happened). -/
def pollLoop (transport : Nat → TxResp) : Nat → Nat → Nat × Nat × Option TxResp
  | 0, _ => (0, 0, none)
  | fuel + 1, i =>
      match transport i with
      | .ok txr => (1, 0, some (.ok txr))
      | .error e =>
          match pollLoop transport fuel (i + 1) with
          | (p, s, none) => (p + 1, s + 1, some (.error e))
          | (p, s, some r) => (p + 1, s + 1, some r)

/-- Lines 108-120: processing of a mined response.  `tx_result['code'] == 1`
raises; otherwise the events are parsed and a *truthy* `tx.error` entry
raises; otherwise the events are returned. -/
def processTxResult (txHash : PyStr) (txr : TxResult) : WaitOutcome :=
  if txr.code = 1 then .waitError (msgExecFailed txHash txr.log)
  else
    match parse_events txr.events with
    | .error e => .pyError e
    | .ok events =>
        match dictGet events txErrorKey with
        | some v => if v ≠ [] then .waitError (msgVmFailed txHash v) else .events events
        | none => .events events

/-- `Client.wait_for_tx` (client.py lines 87-120; structurally identical to
deploy.py lines 145-172). -/
def wait_for_tx (transport : Nat → TxResp) (txHash : PyStr)
    (repeat_count : Nat := 25) : WaitRun :=
  match pollLoop transport repeat_count 0 with
  | (p, s, none) => ⟨p, s, .unboundLocal⟩
  | (p, s, some (.error e)) => ⟨p, s, .waitError (msgBroadcastFailed txHash e.message)⟩
  | (p, s, some (.ok txr)) => ⟨p, s, processTxResult txHash txr⟩

theorem pollLoop_success (transport : Nat → TxResp) :
    ∀ (N : Nat), ∀ (fuel i : Nat) (txr : TxResult), N < fuel →
    (∀ j, j < N → ∃ e, transport (i + j) = .error e) →
    transport (i + N) = .ok txr →
    pollLoop transport fuel i = (N + 1, N, some (.ok txr)) := by
  intro N
  induction N with
  | zero =>
      intro fuel i txr hlt herr hok
      obtain ⟨f, rfl⟩ : ∃ f, fuel = f + 1 := ⟨fuel - 1, by omega⟩
      rw [pollLoop]
      rw [show i + 0 = i from rfl] at hok
      rw [hok]
  | succ N ih =>
      intro fuel i txr hlt herr hok
      obtain ⟨f, rfl⟩ : ∃ f, fuel = f + 1 := ⟨fuel - 1, by omega⟩
      obtain ⟨e0, he0⟩ := herr 0 (Nat.succ_pos N)
      rw [pollLoop]
      rw [show i + 0 = i from rfl] at he0
      rw [he0]
      have hrec : pollLoop transport f (i + 1) = (N + 1, N, some (.ok txr)) := by
        refine ih f (i + 1) txr (by omega) ?_ ?_
        · intro j hj
          obtain ⟨e, he⟩ := herr (j + 1) (by omega)
          exact ⟨e, by rw [show i + 1 + j = i + (j + 1) by omega]; exact he⟩
        · rw [show i + 1 + N = i + (N + 1) by omega]
          exact hok
      rw [hrec]

theorem pollLoop_timeout (transport : Nat → TxResp) (errAt : Nat → RpcError) :
    ∀ (fuel i : Nat),
    (∀ j, j < fuel → transport (i + j) = .error (errAt (i + j))) →
    1 ≤ fuel →
    pollLoop transport fuel i = (fuel, fuel, some (.error (errAt (i + fuel - 1)))) := by
  intro fuel
  induction fuel with
  | zero => intro i _ h1; omega
  | succ f ih =>
      intro i herr _
      have h0 := herr 0 (Nat.succ_pos f)
      rw [show i + 0 = i from rfl] at h0
      rw [pollLoop, h0]
      by_cases hf : 1 ≤ f
      · have hrec := ih (i + 1) (fun j hj => by
          rw [show i + 1 + j = i + (j + 1) by omega]
          exact herr (j + 1) (by omega)) hf
        rw [hrec]
        have : i + 1 + f - 1 = i + (f + 1) - 1 := by omega
        rw [this]
      · have hf0 : f = 0 := by omega
        subst hf0
        simp [pollLoop]

theorem pollLoop_returns_response (transport : Nat → TxResp) :
    ∀ (fuel i : Nat), 1 ≤ fuel →
    ∃ p s j, pollLoop transport fuel i = (p, s, some (transport j)) := by
  intro fuel
  induction fuel with
  | zero => intro i h; omega
  | succ f ih =>
      intro i _
      cases htr : transport i with
      | ok txr =>
          refine ⟨1, 0, i, ?_⟩
          rw [pollLoop, htr]
      | error e =>
          by_cases hf : 1 ≤ f
          · obtain ⟨p, s, j, hrec⟩ := ih (i + 1) hf
            refine ⟨p + 1, s + 1, j, ?_⟩
            rw [pollLoop, htr, hrec]
          · have hf0 : f = 0 := by omega
            subst hf0
            refine ⟨1, 1, i, ?_⟩
            rw [pollLoop, htr]
            rfl

/-- Processing of a mined result that is not code-1 and whose events parse. -/
theorem processTxResult_ok (txHash : PyStr) (txr : TxResult) (m : EventDict)
    (hcode : txr.code ≠ 1) (hp : parse_events txr.events = .ok m) :
    processTxResult txHash txr =
      match dictGet m txErrorKey with
      | some v => if v ≠ [] then .waitError (msgVmFailed txHash v) else .events m
      | none => .events m := by
  simp only [processTxResult, if_neg hcode, hp]

/-- C2.  Confirmation polling with budget `R`: if the transport answers
not-mined for the first `N < R` polls and then delivers a successful result,
`wait_for_tx` issues exactly `N + 1` `query.Tx` calls with `N` one-second
sleeps between them and returns the parsed events; if every poll within the
budget answers not-mined, it raises the `WaitError` built from the last
not-mined error after exactly `R` polls. -/
theorem wait_for_tx_polling (transport : Nat → TxResp) (txHash : PyStr)
    (R N : Nat) (txr : TxResult) (errAt : Nat → RpcError) (m : EventDict) :
    (N < R →
      (∀ j, j < N → ∃ e, transport j = .error e) →
      transport N = .ok txr →
      txr.code ≠ 1 →
      parse_events txr.events = .ok m →
      (∀ v, dictGet m txErrorKey = some v → v = []) →
      wait_for_tx transport txHash R = ⟨N + 1, N, .events m⟩) ∧
    ((∀ j, j < R → transport j = .error (errAt j)) →
      1 ≤ R →
      wait_for_tx transport txHash R =
        ⟨R, R, .waitError (msgBroadcastFailed txHash (errAt (R - 1)).message)⟩) := by
  constructor
  · intro hNR herr hok hcode hparse htxe
    have hpoll := pollLoop_success transport N R 0 txr hNR
      (fun j hj => by simpa using herr j hj) (by simpa using hok)
    have hproc : processTxResult txHash txr = .events m := by
      rw [processTxResult_ok txHash txr m hcode hparse]
      cases hv : dictGet m txErrorKey with
      | some v =>
          have := htxe v hv
          subst this
          simp
      | none => rfl
    rw [wait_for_tx, hpoll]
    show (⟨N + 1, N, processTxResult txHash txr⟩ : WaitRun) = _
    rw [hproc]
  · intro herr hR
    have hpoll := pollLoop_timeout transport errAt R 0
      (fun j hj => by simpa using herr j hj) hR
    rw [wait_for_tx, hpoll]
    show (⟨R, R, .waitError (msgBroadcastFailed txHash (errAt (0 + R - 1)).message)⟩ : WaitRun) = _
    rw [show 0 + R - 1 = R - 1 by omega]

/-- Witness for C2: a transport that answers not-mined once then succeeds
(budget 3), and one that never succeeds (budget 2). -/
theorem wait_for_tx_polling_witness :
    wait_for_tx
      (fun i => if i = 0 then .error ⟨pyStr "tx not found"⟩ else .ok ⟨0, [], [], [], []⟩)
      (pyStr "ab") 3 = ⟨2, 1, .events []⟩ ∧
    wait_for_tx (fun _ => .error ⟨pyStr "tx not found"⟩) (pyStr "ab") 2 =
      ⟨2, 2, .waitError (msgBroadcastFailed (pyStr "ab") (pyStr "tx not found"))⟩ := by
  constructor
  · exact (wait_for_tx_polling
      (fun i => if i = 0 then .error ⟨pyStr "tx not found"⟩ else .ok ⟨0, [], [], [], []⟩)
      (pyStr "ab") 3 1 ⟨0, [], [], [], []⟩ (fun _ => ⟨[]⟩) []).1
      (by omega)
      (by
        intro j hj
        have : j = 0 := by omega
        subst this
        exact ⟨⟨pyStr "tx not found"⟩, rfl⟩)
      rfl (by decide) rfl (by intro v hv; cases hv)
  · exact (wait_for_tx_polling (fun _ => .error ⟨pyStr "tx not found"⟩)
      (pyStr "ab") 2 0 ⟨0, [], [], [], []⟩ (fun _ => ⟨pyStr "tx not found"⟩) []).2
      (fun _ _ => rfl) (by omega)

/-- C3 counterexample: a mined result with nonzero status code 2 and no
events.  The claim requires an execution-reverted error; `wait_for_tx` only
treats code 1 as failure, so it returns the (empty) parsed events instead. -/
theorem wait_for_tx_code_two_not_raised :
    wait_for_tx (fun _ => .ok ⟨2, pyStr "some log", [], [], []⟩) (pyStr "ab") 25 =
      ⟨1, 0, .events []⟩ ∧ (2 : Nat) ≠ 0 := by
  constructor
  · decide
  · decide

/-- C3 (amended).  For a mined result whose events parse, `wait_for_tx`'s
result processing raises a `WaitError` exactly when `tx_result.code` equals 1
(carrying the chain-provided log) or when the parsed events bind `tx.error`
to a non-empty (truthy) value; in all other cases it returns the parsed
events.  A code other than 0 and 1 is treated as success. -/
theorem wait_for_tx_revert_condition (txHash : PyStr) (txr : TxResult)
    (m : EventDict) (hp : parse_events txr.events = .ok m) :
    (txr.code = 1 →
      processTxResult txHash txr = .waitError (msgExecFailed txHash txr.log)) ∧
    ((∃ msg, processTxResult txHash txr = .waitError msg) ↔
      (txr.code = 1 ∨ ∃ v, dictGet m txErrorKey = some v ∧ v ≠ [])) ∧
    (txr.code ≠ 1 → (∀ v, dictGet m txErrorKey = some v → v = []) →
      processTxResult txHash txr = .events m) := by
  refine ⟨?_, ?_, ?_⟩
  · intro hcode
    rw [processTxResult, if_pos hcode]
  · constructor
    · rintro ⟨msg, hmsg⟩
      by_cases hcode : txr.code = 1
      · exact Or.inl hcode
      · rw [processTxResult_ok txHash txr m hcode hp] at hmsg
        refine Or.inr ?_
        cases hv : dictGet m txErrorKey with
        | some v =>
            rw [hv] at hmsg
            by_cases hne : v = []
            · subst hne; simp at hmsg
            · exact ⟨v, rfl, hne⟩
        | none => rw [hv] at hmsg; cases hmsg
    · rintro (hcode | ⟨v, hv, hne⟩)
      · exact ⟨msgExecFailed txHash txr.log, by rw [processTxResult, if_pos hcode]⟩
      · by_cases hcode : txr.code = 1
        · exact ⟨msgExecFailed txHash txr.log, by rw [processTxResult, if_pos hcode]⟩
        · refine ⟨msgVmFailed txHash v, ?_⟩
          rw [processTxResult_ok txHash txr m hcode hp, hv]
          simp [hne]
  · intro hcode htxe
    rw [processTxResult_ok txHash txr m hcode hp]
    cases hv : dictGet m txErrorKey with
    | some v =>
        have := htxe v hv
        subst this
        simp
    | none => rfl

/-- Witness for C3 (amended): a code-1 result raises with the carried log; a
code-0 result with no events returns the empty mapping. -/
theorem wait_for_tx_revert_condition_witness :
    processTxResult (pyStr "ab") ⟨1, pyStr "boom", [], [], []⟩ =
      .waitError (msgExecFailed (pyStr "ab") (pyStr "boom")) ∧
    processTxResult (pyStr "ab") ⟨0, [], [], [], []⟩ = .events [] := by
  constructor
  · exact (wait_for_tx_revert_condition (pyStr "ab")
      ⟨1, pyStr "boom", [], [], []⟩ [] rfl).1 rfl
  · exact (wait_for_tx_revert_condition (pyStr "ab")
      ⟨0, [], [], [], []⟩ [] rfl).2.2 (by decide) (by intro v hv; cases hv)

/-- C9.  With `repeat_count ≥ 1` (and well-formed chain responses, whose event
payloads parse), `wait_for_tx` either returns a parsed event mapping or
raises a `WaitError`; with `repeat_count = 0` the loop never runs and reading
`resp` fails as an unbound-local error, which is neither of the two. -/
theorem wait_for_tx_total (transport : Nat → TxResp) (txHash : PyStr) (R : Nat)
    (hwf : ∀ i txr, transport i = .ok txr → ∃ m, parse_events txr.events = .ok m) :
    (1 ≤ R →
      (∃ m, (wait_for_tx transport txHash R).outcome = .events m) ∨
      (∃ msg, (wait_for_tx transport txHash R).outcome = .waitError msg)) ∧
    wait_for_tx transport txHash 0 = ⟨0, 0, .unboundLocal⟩ := by
  constructor
  · intro hR
    obtain ⟨p, s, j, hpoll⟩ := pollLoop_returns_response transport R 0 hR
    cases htr : transport j with
    | error e =>
        rw [htr] at hpoll
        right
        exact ⟨msgBroadcastFailed txHash e.message, by rw [wait_for_tx, hpoll]⟩
    | ok txr =>
        rw [htr] at hpoll
        obtain ⟨m, hm⟩ := hwf j txr htr
        rw [wait_for_tx, hpoll]
        by_cases hcode : txr.code = 1
        · right
          exact ⟨msgExecFailed txHash txr.log, by
            simp only [processTxResult, if_pos hcode]⟩
        · simp only [processTxResult, if_neg hcode, hm]
          cases hv : dictGet m txErrorKey with
          | some v =>
              by_cases hne : v = []
              · subst hne
                left
                exact ⟨m, by simp⟩
              · right
                exact ⟨msgVmFailed txHash v, by simp [hne]⟩
          | none => exact Or.inl ⟨m, rfl⟩
  · rfl

/-- Witness for C9: a never-succeeding transport with budget 1 raises a
`WaitError`; with budget 0 the run ends in the unbound-local failure. -/
theorem wait_for_tx_total_witness :
    ((∃ m, (wait_for_tx (fun _ => .error ⟨pyStr "nf"⟩) (pyStr "ab") 1).outcome =
        .events m) ∨
      (∃ msg, (wait_for_tx (fun _ => .error ⟨pyStr "nf"⟩) (pyStr "ab") 1).outcome =
        .waitError msg)) ∧
    wait_for_tx (fun _ => .error ⟨pyStr "nf"⟩) (pyStr "ab") 0 = ⟨0, 0, .unboundLocal⟩ := by
  constructor
  · exact (wait_for_tx_total (fun _ => .error ⟨pyStr "nf"⟩) (pyStr "ab") 1
      (by intro i txr h; cases h)).1 (by omega)
  · exact (wait_for_tx_total (fun _ => .error ⟨pyStr "nf"⟩) (pyStr "ab") 0
      (by intro i txr h; cases h)).2

/-! ## UniswapManager domain operations (src/oneswap_deployer/uniswap.py)

Read-only RPC calls (`client.call_method`) and state-changing executions
(`client.execute_method`) are recorded in a trace; the chain's answers are
supplied through an environment record.  A read-only call that the
environment marks as failing raises `ProtocolAPIError`. -/

/-- One chain interaction: a read-only query or a state-changing execution. -/
inductive RpcAction where
  | query (fn : PyStr)
  | execute (fn : PyStr)
  deriving DecidableEq, Repr

/-- Whether an action is state-changing. -/
def isExecute : RpcAction → Bool
  | .execute _ => true
  | .query _ => false

/-- The state-changing calls of a trace. -/
def execCalls (tr : List RpcAction) : List RpcAction := tr.filter isExecute

def kFactory : PyStr := pyStr "UniswapV2Factory"
def kRouter : PyStr := pyStr "UniswapV2Router"
def kWOLT : PyStr := pyStr "WOLT"
def fnGetPair : PyStr := pyStr "getPair"

/-- The all-zero (non-existent) pair address: `'0' * 40`. -/
def zeros40 : PyStr := List.replicate 40 '0'
def fnGetReserves : PyStr := pyStr "getReserves"
def fnAddLiquidity : PyStr := pyStr "addLiquidity"
def fnAddLiquidityETH : PyStr := pyStr "addLiquidityETH"
def fnSymbol : PyStr := pyStr "symbol"
def fnAllowance : PyStr := pyStr "allowance"
def fnApprove : PyStr := pyStr "approve"

/-- `UniswapManager._get_state` (uniswap.py lines 113-120): a missing key
prints and calls `sys.exit(1)`; otherwise the record's `address` is
returned. -/
def _get_state (st : DeployState) (abi_name : PyStr) : Except PyErr PyStr :=
  match stateGet st abi_name with
  | none => .error .sysExit
  | some contract_data => .ok contract_data.address

/-- `get_pair` (uniswap.py lines 224-234): queries the factory's `getPair`
(answer supplied as `pairResult`), strips a `0x` prefix, and maps the
all-zero pair address to `None`. -/
def get_pair (st : DeployState) (pairResult : PyStr) :
    List RpcAction × Except PyErr (Option PyStr) :=
  match _get_state st kFactory with
  | .error e => ([], .error e)
  | .ok _factory_address =>
      let pair_address := remove_0x pairResult
      if pair_address = zeros40 then ([.query fnGetPair], .ok none)
      else ([.query fnGetPair], .ok (some pair_address))

/-- `get_reserves` (uniswap.py lines 165-175): resolves the pair address; a
missing pair yields `[0, 0]` without touching the pair contract; otherwise
the pair's `getReserves` answer (supplied as `reservesResult`) is returned. -/
def get_reserves (st : DeployState) (pairResult : PyStr)
    (reservesResult : Nat × Nat) : List RpcAction × Except PyErr (Nat × Nat) :=
  match _get_state st kFactory with
  | .error e => ([], .error e)
  | .ok _ =>
      match get_pair st pairResult with
      | (tr, .error e) => (tr, .error e)
      | (tr, .ok none) => (tr, .ok (0, 0))
      | (tr, .ok (some _)) => (tr ++ [.query fnGetReserves], .ok reservesResult)

/-- C6.  When the state knows the factory and the factory's pair lookup
yields the all-zero address (no pair exists), `get_reserves` returns `[0, 0]`
without raising, and issues no further chain call after the lookup. -/
theorem get_reserves_no_pair (st : DeployState) (pairResult : PyStr)
    (rr : Nat × Nat) (f : PyStr)
    (hf : _get_state st kFactory = .ok f)
    (hzero : remove_0x pairResult = zeros40) :
    get_reserves st pairResult rr = ([.query fnGetPair], .ok (0, 0)) := by
  rw [get_reserves, hf, get_pair, hf]
  simp [hzero]

/-- Witness for C6: a state holding only the factory, and a `0x`-prefixed
all-zero pair answer. -/
theorem get_reserves_no_pair_witness :
    get_reserves [(kFactory, ⟨pyStr "f1", pyStr "h1"⟩)]
      (pyStr "0x" ++ zeros40) (3, 4) =
      ([.query fnGetPair], .ok (0, 0)) := by
  refine get_reserves_no_pair _ _ _ (pyStr "f1") (by decide) ?_
  decide

/-! ## erc20_approve (uniswap.py lines 236-256) -/

/-- The chain's answers to the calls `erc20_approve` makes. -/
structure ApproveEnv where
  /-- answer of the `symbol` query (`get_token_name`). -/
  tokenName : PyStr
  /-- answer of the `allowance` query. -/
  allowance : Nat
  /-- `done` flag of the `approve` execution, were it issued. -/
  approveDone : Bool
  deriving DecidableEq, Repr

/-- `erc20_approve`: queries the token symbol and the current allowance, and
issues the state-changing `approve` only when the allowance differs from the
target `value`; a failed approve trips the `assert`. -/
def erc20_approve (env : ApproveEnv) (value : Nat) :
    List RpcAction × Except PyErr Unit :=
  let tr := [RpcAction.query fnSymbol, RpcAction.query fnAllowance]
  if env.allowance ≠ value then
    if env.approveDone then (tr ++ [.execute fnApprove], .ok ())
    else (tr ++ [.execute fnApprove],
      .error (.assertionError (env.tokenName ++ pyStr " not approved.")))
  else (tr, .ok ())

/-- C7.  `erc20_approve` issues the state-changing `approve` call iff the
queried allowance differs from the target value; when they agree it performs
the two read-only queries and nothing else. -/
theorem erc20_approve_gated (env : ApproveEnv) (value : Nat) :
    (RpcAction.execute fnApprove ∈ (erc20_approve env value).1 ↔
      env.allowance ≠ value) ∧
    (env.allowance = value →
      erc20_approve env value =
        ([.query fnSymbol, .query fnAllowance], .ok ())) ∧
    (env.allowance ≠ value →
      execCalls (erc20_approve env value).1 = [.execute fnApprove]) := by
  by_cases h : env.allowance = value
  · refine ⟨?_, fun _ => by simp [erc20_approve, h], fun hc => absurd h hc⟩
    rw [erc20_approve, if_neg (by simpa using h)]
    simp [h]
  · refine ⟨?_, fun hc => absurd hc h, fun _ => ?_⟩
    · cases hd : env.approveDone <;>
        simp [erc20_approve, h, hd]
    · cases hd : env.approveDone <;>
        simp [erc20_approve, execCalls, h, hd, isExecute]

/-- Witness for C7: allowance already at the target (no execution), and a
differing allowance (one `approve` execution). -/
theorem erc20_approve_gated_witness :
    erc20_approve ⟨pyStr "DAI", 5, true⟩ 5 =
      ([.query fnSymbol, .query fnAllowance], .ok ()) ∧
    execCalls (erc20_approve ⟨pyStr "DAI", 5, true⟩ 7).1 = [.execute fnApprove] := by
  exact ⟨(erc20_approve_gated ⟨pyStr "DAI", 5, true⟩ 5).2.1 rfl,
    (erc20_approve_gated ⟨pyStr "DAI", 5, true⟩ 7).2.2 (by decide)⟩

/-! ## add_liquidity / add_liquidity_OLT (uniswap.py lines 258-328) -/

/-- The chain's answers to the calls the add-liquidity operations make. -/
structure AddLiqEnv where
  /-- factory `getPair` answer for the first reserve read. -/
  pairResult1 : PyStr
  /-- pair `getReserves` answer for the first reserve read. -/
  reservesResult1 : Nat × Nat
  /-- whether the read-only pre-check simulation call succeeds. -/
  simOk : Bool
  /-- `done` flag of the router execution, were it issued. -/
  execDone : Bool
  /-- transaction hash of the router execution. -/
  txHash : PyStr
  /-- factory `getPair` answer for the re-read. -/
  pairResult2 : PyStr
  /-- pair `getReserves` answer for the re-read. -/
  reservesResult2 : Nat × Nat
  deriving DecidableEq, Repr

def liqFailedMsg (txHash : PyStr) : PyStr :=
  pyStr "Liquidity pair failed, please check '" ++ txHash ++ pyStr "' for more details"

/-- `add_liquidity` (uniswap.py lines 289-328): reads the reserves; when
`force` or both reserves are zero it simulates the router's `addLiquidity`
(a failing simulation raises `ProtocolAPIError` before anything is spent),
executes it, asserts the `done` flag and re-reads the reserves, asserting
both became non-zero; otherwise it changes nothing. -/
def add_liquidity (st : DeployState) (env : AddLiqEnv) (force : Bool) :
    List RpcAction × Except PyErr Unit :=
  match _get_state st kFactory with
  | .error e => ([], .error e)
  | .ok _ =>
  match _get_state st kRouter with
  | .error e => ([], .error e)
  | .ok _ =>
  match get_reserves st env.pairResult1 env.reservesResult1 with
  | (tr, .error e) => (tr, .error e)
  | (tr, .ok reserves) =>
      if force = true ∨ (reserves.1 = 0 ∧ reserves.2 = 0) then
        if env.simOk = false then
          (tr ++ [.query fnAddLiquidity], .error .protocolAPIError)
        else
          let tr := tr ++ [.query fnAddLiquidity, .execute fnAddLiquidity]
          if env.execDone = false then
            (tr, .error (.assertionError (liqFailedMsg env.txHash)))
          else
            match get_reserves st env.pairResult2 env.reservesResult2 with
            | (tr2, .error e) => (tr ++ tr2, .error e)
            | (tr2, .ok reserves2) =>
                if reserves2.1 = 0 then
                  (tr ++ tr2, .error (.assertionError (pyStr "reserve0 is zero")))
                else if reserves2.2 = 0 then
                  (tr ++ tr2, .error (.assertionError (pyStr "reserve1 is zero")))
                else (tr ++ tr2, .ok ())
      else (tr, .ok ())

/-- `add_liquidity_OLT` (uniswap.py lines 258-287): as `add_liquidity` with
the wrapped token (`WOLT`) as token0 and the router's `addLiquidityETH`
entry point, and without the read-only pre-check. -/
def add_liquidity_OLT (st : DeployState) (env : AddLiqEnv) (force : Bool) :
    List RpcAction × Except PyErr Unit :=
  match _get_state st kFactory with
  | .error e => ([], .error e)
  | .ok _ =>
  match _get_state st kRouter with
  | .error e => ([], .error e)
  | .ok _ =>
  match _get_state st kWOLT with
  | .error e => ([], .error e)
  | .ok _token0 =>
  match get_reserves st env.pairResult1 env.reservesResult1 with
  | (tr, .error e) => (tr, .error e)
  | (tr, .ok reserves) =>
      if force = true ∨ (reserves.1 = 0 ∧ reserves.2 = 0) then
        let tr := tr ++ [RpcAction.execute fnAddLiquidityETH]
        if env.execDone = false then
          (tr, .error (.assertionError (liqFailedMsg env.txHash)))
        else
          match get_reserves st env.pairResult2 env.reservesResult2 with
          | (tr2, .error e) => (tr ++ tr2, .error e)
          | (tr2, .ok reserves2) =>
              if reserves2.1 = 0 then
                (tr ++ tr2, .error (.assertionError (pyStr "reserve0 is zero")))
              else if reserves2.2 = 0 then
                (tr ++ tr2, .error (.assertionError (pyStr "reserve1 is zero")))
              else (tr ++ tr2, .ok ())
      else (tr, .ok ())

/-- The shape of `get_pair` when the factory is known. -/
theorem get_pair_eq (st : DeployState) (pr : PyStr) (f : PyStr)
    (hf : _get_state st kFactory = .ok f) :
    get_pair st pr = ([.query fnGetPair],
      .ok (if remove_0x pr = zeros40 then none
           else some (remove_0x pr))) := by
  rw [get_pair, hf]
  by_cases hz : remove_0x pr = zeros40 <;> simp [hz]

/-- `get_reserves` performs read-only calls only. -/
theorem get_reserves_trace_readonly (st : DeployState) (pr : PyStr)
    (rr : Nat × Nat) : execCalls (get_reserves st pr rr).1 = [] := by
  cases hf : _get_state st kFactory with
  | error e => simp [get_reserves, hf, execCalls]
  | ok f =>
      rw [get_reserves, hf, get_pair_eq st pr f hf]
      by_cases hz : remove_0x pr = zeros40 <;>
        simp [hz, execCalls, isExecute]

/-- C4.  With the needed contract addresses in the state and a passing
pre-check simulation: the router's add-liquidity entry point is executed
exactly when `force` is set or both just-read reserves are zero; whenever it
was executed, a re-read that still shows a zero reserve makes the operation
raise; and with `force` unset and a non-zero reserve pair the operation makes
no state-changing call at all and succeeds.  This covers `add_liquidity`
(entry point `addLiquidity`) and `add_liquidity_OLT` (`addLiquidityETH`). -/
theorem add_liquidity_gated (st : DeployState) (env : AddLiqEnv) (force : Bool)
    (f r w : PyStr) (res1 : Nat × Nat)
    (hf : _get_state st kFactory = .ok f)
    (hr : _get_state st kRouter = .ok r)
    (hw : _get_state st kWOLT = .ok w)
    (hsim : env.simOk = true)
    (hres1 : (get_reserves st env.pairResult1 env.reservesResult1).2 = .ok res1) :
    (execCalls (add_liquidity st env force).1 =
      if force = true ∨ (res1.1 = 0 ∧ res1.2 = 0) then [.execute fnAddLiquidity]
      else []) ∧
    (execCalls (add_liquidity_OLT st env force).1 =
      if force = true ∨ (res1.1 = 0 ∧ res1.2 = 0) then [.execute fnAddLiquidityETH]
      else []) ∧
    ((force = true ∨ (res1.1 = 0 ∧ res1.2 = 0)) → env.execDone = true →
      ∀ res2, (get_reserves st env.pairResult2 env.reservesResult2).2 = .ok res2 →
      (res2.1 = 0 ∨ res2.2 = 0) →
      (∃ m1, (add_liquidity st env force).2 = .error (.assertionError m1)) ∧
      (∃ m2, (add_liquidity_OLT st env force).2 = .error (.assertionError m2))) ∧
    (force = false → ¬(res1.1 = 0 ∧ res1.2 = 0) →
      add_liquidity st env force =
        ((get_reserves st env.pairResult1 env.reservesResult1).1, .ok ()) ∧
      add_liquidity_OLT st env force =
        ((get_reserves st env.pairResult1 env.reservesResult1).1, .ok ())) := by
  rcases hEq1 : get_reserves st env.pairResult1 env.reservesResult1 with ⟨tr1, rv1⟩
  have hrv1 : rv1 = .ok res1 := by rw [hEq1] at hres1; exact hres1
  subst hrv1
  have htr1 : List.filter isExecute tr1 = [] := by
    have := get_reserves_trace_readonly st env.pairResult1 env.reservesResult1
    rw [hEq1] at this
    exact this
  rcases hEq2 : get_reserves st env.pairResult2 env.reservesResult2 with ⟨tr2, rv2⟩
  have htr2 : List.filter isExecute tr2 = [] := by
    have := get_reserves_trace_readonly st env.pairResult2 env.reservesResult2
    rw [hEq2] at this
    exact this
  refine ⟨?_, ?_, ?_, ?_⟩
  · by_cases hc : force = true ∨ (res1.1 = 0 ∧ res1.2 = 0)
    · cases he : env.execDone with
      | false =>
          simp [add_liquidity, hf, hr, hEq1, hc, hsim, he, execCalls, isExecute, htr1]
      | true =>
          cases hrv2 : rv2 with
          | error e =>
              simp [add_liquidity, hf, hr, hEq1, hEq2, hc, hsim, he, hrv2,
                execCalls, isExecute, htr1, htr2]
          | ok res2 =>
              by_cases h20 : res2.1 = 0 <;> by_cases h21 : res2.2 = 0 <;>
                simp [add_liquidity, hf, hr, hEq1, hEq2, hc, hsim, he, hrv2,
                  h20, h21, execCalls, isExecute, htr1, htr2]
    · simp [add_liquidity, hf, hr, hEq1, hc, execCalls, isExecute, htr1]
  · by_cases hc : force = true ∨ (res1.1 = 0 ∧ res1.2 = 0)
    · cases he : env.execDone with
      | false =>
          simp [add_liquidity_OLT, hf, hr, hw, hEq1, hc, he, execCalls, isExecute, htr1]
      | true =>
          cases hrv2 : rv2 with
          | error e =>
              simp [add_liquidity_OLT, hf, hr, hw, hEq1, hEq2, hc, he, hrv2,
                execCalls, isExecute, htr1, htr2]
          | ok res2 =>
              by_cases h20 : res2.1 = 0 <;> by_cases h21 : res2.2 = 0 <;>
                simp [add_liquidity_OLT, hf, hr, hw, hEq1, hEq2, hc, he, hrv2,
                  h20, h21, execCalls, isExecute, htr1, htr2]
    · simp [add_liquidity_OLT, hf, hr, hw, hEq1, hc, execCalls, isExecute, htr1]
  · intro hc hdone res2 hres2 hzero
    have hrv2 : rv2 = .ok res2 := hres2
    subst hrv2
    have h20 : res2.1 = 0 ∨ (¬res2.1 = 0 ∧ res2.2 = 0) := by
      rcases hzero with h | h
      · exact Or.inl h
      · by_cases h1 : res2.1 = 0
        · exact Or.inl h1
        · exact Or.inr ⟨h1, h⟩
    constructor
    · rcases h20 with h | ⟨h1, h2⟩
      · exact ⟨pyStr "reserve0 is zero",
          by simp [add_liquidity, hf, hr, hEq1, hEq2, hc, hsim, hdone, h]⟩
      · exact ⟨pyStr "reserve1 is zero",
          by simp [add_liquidity, hf, hr, hEq1, hEq2, hc, hsim, hdone, h1, h2]⟩
    · rcases h20 with h | ⟨h1, h2⟩
      · exact ⟨pyStr "reserve0 is zero",
          by simp [add_liquidity_OLT, hf, hr, hw, hEq1, hEq2, hc, hdone, h]⟩
      · exact ⟨pyStr "reserve1 is zero",
          by simp [add_liquidity_OLT, hf, hr, hw, hEq1, hEq2, hc, hdone, h1, h2]⟩
  · intro hforce hnz
    have hc : ¬(force = true ∨ (res1.1 = 0 ∧ res1.2 = 0)) := by
      rintro (h | h)
      · rw [hforce] at h; cases h
      · exact hnz h
    constructor
    · simp [add_liquidity, hf, hr, hEq1, hc]
    · simp [add_liquidity_OLT, hf, hr, hw, hEq1, hc]

/-- A concrete deployed state for the C4 witness. -/
def stW : DeployState :=
  [(kFactory, ⟨pyStr "f1", pyStr "t1"⟩), (kRouter, ⟨pyStr "r1", pyStr "t2"⟩),
   (kWOLT, ⟨pyStr "w1", pyStr "t3"⟩)]

/-- First liquidity provision: no pair yet, so reserves read as `[0, 0]`. -/
def envFirstLiq : AddLiqEnv :=
  ⟨pyStr "0x" ++ zeros40, (0, 0), true, true, pyStr "h", pyStr "0xab", (5, 7)⟩

/-- Pool already filled: reserves read as `[5, 7]`. -/
def envFilledLiq : AddLiqEnv :=
  ⟨pyStr "0xab", (5, 7), true, true, pyStr "h", pyStr "0xab", (5, 7)⟩

/-- Witness for C4: with zero reserves and `force = False` the router call is
executed (both variants); with non-zero reserves and `force = False` the
operation performs its two read-only calls and succeeds without any
state-changing call. -/
theorem add_liquidity_gated_witness :
    execCalls (add_liquidity stW envFirstLiq false).1 = [.execute fnAddLiquidity] ∧
    execCalls (add_liquidity_OLT stW envFirstLiq false).1 = [.execute fnAddLiquidityETH] ∧
    add_liquidity stW envFilledLiq false =
      ([.query fnGetPair, .query fnGetReserves], .ok ()) := by
  have hA := add_liquidity_gated stW envFirstLiq false (pyStr "f1") (pyStr "r1")
    (pyStr "w1") (0, 0) (by decide) (by decide) (by decide) rfl (by decide)
  have hB := add_liquidity_gated stW envFilledLiq false (pyStr "f1") (pyStr "r1")
    (pyStr "w1") (5, 7) (by decide) (by decide) (by decide) rfl (by decide)
  refine ⟨?_, ?_, ?_⟩
  · rw [hA.1]
    decide
  · rw [hA.2.1]
    decide
  · rw [(hB.2.2.2 rfl (by decide)).1]
    decide

/-! ## Exact numeric model for the slippage arithmetic (uniswap.py lines 18-47)

`calculate_min_slippage_amount` / `calculate_max_slippage_amount` receive an
integer wei `amount` and a `decimal.Decimal` slippage percentage (the CLI
passes `--slippage` as `Decimal`).  The Python evaluation mixes three exact,
deterministic arithmetics, all of which are modelled on `ℚ`:

* `decimal.Decimal` in the *default* context: 28 significant digits, rounding
  half-to-even (`roundSig 28`); the multiplication
  `Web3.fromWei(amount,'wei') * Decimal(1 - spercent)` runs in this context;
* `decimal.Decimal` in web3's `fromWei`/`toWei` local context: 999
  significant digits (`roundSig 999`).  `fromWei` (eth_utils `from_wei`)
  first returns the integer `0` for a zero input and raises `ValueError` for
  any other input outside `[0, 2**256 - 1]`; `toWei` checks its prec-999
  result against the same `0 <= result <= 2**256 - 1` bound (raising
  `ValueError` outside) and truncates it by `int(...)`;
* IEEE binary64 (`float`) inside `_get_change`: correctly rounded division
  and multiplication (`fdiv`, `fmul`), CPython's `round(x, 2)` (correctly
  rounded to 2 decimal places, ties to even, then back to the nearest
  double), and an exact `float > Decimal` comparison.  All values reached
  here are far inside the normal double range, so overflow and subnormal
  rounding do not occur and `fl` models only the 53-bit significand. -/

/-- Digit count of `n` in base `b` (fuel-driven; `lenBase b 0 = 1`). -/
def lenBaseAux (b : Nat) : Nat → Nat → Nat
  | 0, _ => 0
  | fuel + 1, n => if n < b then 1 else lenBaseAux b fuel (n / b) + 1

/-- Digit count of `n` in base `b`. -/
def lenBase (b n : Nat) : Nat := lenBaseAux b n n

/-- Binary exponentiation on `ℚ` (fuel-driven, shallow recursion). -/
def qpowAux (b : ℚ) : Nat → Nat → ℚ
  | 0, _ => 1
  | fuel + 1, n =>
      if n = 0 then 1
      else if n % 2 = 0 then qpowAux b fuel (n / 2) * qpowAux b fuel (n / 2)
      else qpowAux b fuel (n / 2) * qpowAux b fuel (n / 2) * b

/-- `b ^ n` on `ℚ` by binary exponentiation. -/
def qpow (b : ℚ) (n : Nat) : ℚ := qpowAux b n n

/-- `b ^ z` for an integer exponent, by binary exponentiation. -/
def zpowQ (b : ℚ) (z : ℤ) : ℚ :=
  if 0 ≤ z then qpow b z.toNat else (qpow b (-z).toNat)⁻¹

/-- Floor logarithm of a positive rational: the greatest `e` with
`b ^ e ≤ q`. -/
def qFloorLog (b : Nat) (q : ℚ) : ℤ :=
  let a := q.num.toNat
  let c := q.den
  let z : ℤ := (lenBase b a : ℤ) - (lenBase b c : ℤ)
  if zpowQ (b : ℚ) z ≤ q then z else z - 1

/-- Floor of a rational (kernel-computable form). -/
def qFloor (q : ℚ) : ℤ := q.num / (q.den : ℤ)

theorem qFloor_eq (q : ℚ) : qFloor q = ⌊q⌋ := (Rat.floor_def).symm

/-- Round a rational to an integer, ties to even (`ROUND_HALF_EVEN`, also the
tie rule of IEEE binary64 and of CPython's `round`). -/
def rhe (q : ℚ) : ℤ :=
  if q - qFloor q < 1/2 then qFloor q
  else if 1/2 < q - qFloor q then qFloor q + 1
  else if qFloor q % 2 = 0 then qFloor q else qFloor q + 1

/-- Round a positive rational to `p` significant decimal digits, half-even. -/
def roundSigPos (p : Nat) (q : ℚ) : ℚ :=
  let scale : ℤ := (p : ℤ) - 1 - qFloorLog 10 q
  (rhe (q * zpowQ 10 scale) : ℚ) / zpowQ 10 scale

/-- Rounding of an exact result to `p` significant decimal digits, half-even:
what a `decimal` context with `prec = p` does to an ideal result. -/
def roundSig (p : Nat) (q : ℚ) : ℚ :=
  if q = 0 then 0
  else if q < 0 then -roundSigPos p (-q)
  else roundSigPos p q

/-- `Decimal` multiplication in the default context (prec 28). -/
def decMul (a b : ℚ) : ℚ := roundSig 28 (a * b)

/-- `Decimal` division in the default context (prec 28). -/
def decDiv (a b : ℚ) : ℚ := roundSig 28 (a / b)

/-- `Decimal` addition in the default context (prec 28). -/
def decAdd (a b : ℚ) : ℚ := roundSig 28 (a + b)

/-- `Decimal` subtraction in the default context (prec 28). -/
def decSub (a b : ℚ) : ℚ := roundSig 28 (a - b)

/-- web3's `fromWei`/`toWei` local decimal context: 999 significant digits. -/
def w3Round (q : ℚ) : ℚ := roundSig 999 q

/-- `round(slippage, 2)` on a `Decimal`: quantize to two decimal places,
ties to even. -/
def round2dec (q : ℚ) : ℚ := (rhe (q * 100) : ℚ) / 100

/-- web3's upper wei bound, `2 ** 256 - 1`. -/
def MAX_WEI : Nat := 2 ^ 256 - 1

/-- `Web3.toWei(x, 'wei')`: the value is taken into a prec-999 context,
checked against `[0, MAX_WEI]` (raising `ValueError` outside) and truncated
by `int(...)` (toward zero; non-negative here, hence the floor). -/
def toWei_wei (q : ℚ) : Except PyErr ℤ :=
  let r := w3Round q
  if r < 0 ∨ (MAX_WEI : ℚ) < r then .error .valueError else .ok ⌊r⌋

/-- `Web3.fromWei(n, 'wei')` (eth_utils `from_wei`): a zero input returns the
integer `0`; any other input outside `[0, MAX_WEI]` raises `ValueError`; an
in-range input is taken into the prec-999 local context and divided by the
unit value `1`. -/
def fromWei_wei (n : Nat) : Except PyErr ℚ :=
  if n = 0 then .ok 0
  else if MAX_WEI < n then .error .valueError
  else .ok (w3Round (n : ℚ))

/-- IEEE binary64 rounding of a positive mid-range rational: 53-bit
significand, round to nearest, ties to even. -/
def flPos (q : ℚ) : ℚ :=
  let scale : ℤ := 52 - qFloorLog 2 q
  (rhe (q * zpowQ 2 scale) : ℚ) / zpowQ 2 scale

/-- IEEE binary64 rounding (normal range). -/
def fl (q : ℚ) : ℚ :=
  if q = 0 then 0 else if q < 0 then -flPos (-q) else flPos q

/-- Correctly rounded double division (CPython `int / int` and
`float / float`). -/
def fdiv (a b : ℚ) : ℚ := fl (a / b)

/-- Correctly rounded double multiplication. -/
def fmul (a b : ℚ) : ℚ := fl (a * b)

/-- CPython `round(x, 2)` on a double: the exact value is rounded to two
decimal places (ties to even) and the decimal result is rounded back to the
nearest double. -/
def pyRound2 (x : ℚ) : ℚ := fl ((rhe (x * 100) : ℚ) / 100)

/-- A Python float that may be `inf` (the `ZeroDivisionError` fallback of
`_get_change`). -/
inductive PyFloat where
  | finite (q : ℚ)
  | inf
  deriving DecidableEq, Repr

/-- `change > slippage`: CPython compares a float and a `Decimal` exactly. -/
def pyGt (f : PyFloat) (d : ℚ) : Bool :=
  match f with
  | .inf => true
  | .finite q => decide (d < q)

/-- `UniswapUtils._get_change` (uniswap.py lines 20-27): percentage change in
float arithmetic, `0` on equal inputs, `inf` on division by zero. -/
def _get_change (current previous : ℤ) : PyFloat :=
  if current = previous then .finite 0
  else if previous = 0 then .inf
  else .finite (pyRound2 (fmul (fdiv |current - previous| previous) 100))

/-- `UniswapUtils.calculate_min_slippage_amount` (uniswap.py lines 29-39).
`slippage` is the CLI's `Decimal` percentage; `Web3.fromWei(amount, 'wei')`
can itself raise `ValueError` before any arithmetic happens. -/
def calculate_min_slippage_amount (amount : Nat) (slippage : ℚ) : Except PyErr ℤ :=
  match fromWei_wei amount with
  | .error e => .error e
  | .ok fw =>
      match toWei_wei (decMul fw (decSub 1 (decDiv (round2dec slippage) 100))) with
      | .error e => .error e
      | .ok slippaged =>
          if pyGt (_get_change slippaged (amount : ℤ)) (round2dec slippage) then .ok 0
          else .ok slippaged

/-- `UniswapUtils.calculate_max_slippage_amount` (uniswap.py lines 41-47). -/
def calculate_max_slippage_amount (amount : Nat) (slippage : ℚ) : Except PyErr ℤ :=
  match fromWei_wei amount with
  | .error e => .error e
  | .ok fw => toWei_wei (decMul fw (decAdd 1 (decDiv (round2dec slippage) 100)))

/-! ### Correctness of the auxiliary numeric functions -/

theorem qpowAux_eq (b : ℚ) :
    ∀ fuel n, n ≤ fuel → qpowAux b fuel n = b ^ n := by
  intro fuel
  induction fuel with
  | zero =>
      intro n h
      have : n = 0 := by omega
      subst this
      rfl
  | succ f ih =>
      intro n hn
      rw [qpowAux]
      by_cases h0 : n = 0
      · simp [h0]
      · rw [if_neg h0]
        have hrec : qpowAux b f (n / 2) = b ^ (n / 2) := ih (n / 2) (by omega)
        by_cases h2 : n % 2 = 0
        · rw [if_pos h2, hrec, ← pow_add]
          congr 1
          omega
        · rw [if_neg h2, hrec, ← pow_add, ← pow_succ]
          congr 1
          omega

theorem qpow_eq (b : ℚ) (n : Nat) : qpow b n = b ^ n :=
  qpowAux_eq b n n le_rfl

theorem zpowQ_eq (b : ℚ) (z : ℤ) : zpowQ b z = b ^ z := by
  rw [zpowQ]
  by_cases hz : 0 ≤ z
  · rw [if_pos hz, qpow_eq, ← zpow_natCast]
    congr 1
    omega
  · rw [if_neg hz, qpow_eq, ← zpow_natCast]
    have h1 : ((-z).toNat : ℤ) = -z := by omega
    rw [h1, zpow_neg, inv_inv]

theorem lenBaseAux_spec (b : Nat) (hb : 2 ≤ b) :
    ∀ fuel n, 1 ≤ n → n ≤ fuel →
      b ^ (lenBaseAux b fuel n - 1) ≤ n ∧ n < b ^ lenBaseAux b fuel n := by
  intro fuel
  induction fuel with
  | zero => intro n h1 h2; omega
  | succ f ih =>
      intro n h1 h2
      rw [lenBaseAux]
      by_cases hnb : n < b
      · rw [if_pos hnb]
        constructor
        · simpa using h1
        · simpa using hnb
      · rw [if_neg hnb]
        have hm1 : 1 ≤ n / b := (Nat.one_le_div_iff (by omega)).mpr (by omega)
        have hm2 : n / b ≤ f := by
          have := Nat.div_lt_self (by omega : 0 < n) (by omega : 1 < b)
          omega
        obtain ⟨hL, hU⟩ := ih (n / b) hm1 hm2
        have hL1 : 1 ≤ lenBaseAux b f (n / b) := by
          by_contra h
          have h0 : lenBaseAux b f (n / b) = 0 := by omega
          rw [h0, pow_zero] at hU
          omega
        constructor
        · have hpow : b ^ (lenBaseAux b f (n / b) + 1 - 1) =
              b ^ (lenBaseAux b f (n / b) - 1) * b := by
            rw [Nat.add_sub_cancel]
            conv_lhs => rw [show lenBaseAux b f (n / b) =
              (lenBaseAux b f (n / b) - 1) + 1 by omega]
            rw [pow_succ]
          rw [hpow]
          calc b ^ (lenBaseAux b f (n / b) - 1) * b
              ≤ (n / b) * b := Nat.mul_le_mul_right b hL
            _ ≤ n := Nat.div_mul_le_self n b
        · have hmod : n % b < b := Nat.mod_lt n (by omega)
          have hdm : b * (n / b) + n % b = n := Nat.div_add_mod n b
          have hstep : n < b * (n / b + 1) := by
            rw [Nat.mul_add, Nat.mul_one]
            omega
          have hsucc : n / b + 1 ≤ b ^ lenBaseAux b f (n / b) := hU
          calc n < b * (n / b + 1) := hstep
            _ ≤ b * b ^ lenBaseAux b f (n / b) := Nat.mul_le_mul_left b hsucc
            _ = b ^ (lenBaseAux b f (n / b) + 1) := by rw [pow_succ, Nat.mul_comm]

theorem lenBase_spec (b n : Nat) (hb : 2 ≤ b) (hn : 1 ≤ n) :
    b ^ (lenBase b n - 1) ≤ n ∧ n < b ^ lenBase b n :=
  lenBaseAux_spec b hb n n hn le_rfl

theorem lenBase_pos (b n : Nat) (hb : 2 ≤ b) (hn : 1 ≤ n) : 1 ≤ lenBase b n := by
  obtain ⟨_, hU⟩ := lenBase_spec b n hb hn
  by_contra h
  have h0 : lenBase b n = 0 := by omega
  rw [h0, pow_zero] at hU
  omega

theorem natCast_zpow_eq (b : Nat) (k : Nat) :
    (b : ℚ) ^ (k : ℤ) = ((b ^ k : ℕ) : ℚ) := by
  rw [zpow_natCast]
  push_cast
  ring

theorem qFloorLog_spec (b : Nat) (hb : 2 ≤ b) (q : ℚ) (hq : 0 < q) :
    (b : ℚ) ^ qFloorLog b q ≤ q ∧ q < (b : ℚ) ^ (qFloorLog b q + 1) := by
  have hbQ : (1 : ℚ) < (b : ℚ) := by exact_mod_cast (by omega : 1 < b)
  have hb0 : (0 : ℚ) < (b : ℚ) := by linarith
  have hbne : (b : ℚ) ≠ 0 := ne_of_gt hb0
  have hnum : 0 < q.num := Rat.num_pos.mpr hq
  have ha1 : 1 ≤ q.num.toNat := by omega
  have hden1 : 1 ≤ q.den := q.den_pos
  obtain ⟨hLa, hUa⟩ := lenBase_spec b q.num.toNat hb ha1
  obtain ⟨hLc, hUc⟩ := lenBase_spec b q.den hb hden1
  have hla1 : 1 ≤ lenBase b q.num.toNat := lenBase_pos b _ hb ha1
  have hlc1 : 1 ≤ lenBase b q.den := lenBase_pos b _ hb hden1
  set la := lenBase b q.num.toNat with hladef
  set lc := lenBase b q.den with hlcdef
  have hdenQ : (0 : ℚ) < (q.den : ℚ) := by exact_mod_cast hden1
  have hnumQ : ((q.num.toNat : ℕ) : ℚ) = (q.num : ℚ) := by
    have := Int.toNat_of_nonneg (le_of_lt hnum)
    exact_mod_cast congrArg (fun z : ℤ => (z : ℚ)) this
  -- cast the digit-length bounds into ℚ with integer exponents
  have hUaQ : (q.num : ℚ) < (b : ℚ) ^ (la : ℤ) := by
    rw [natCast_zpow_eq, ← hnumQ]
    exact_mod_cast hUa
  have hLaQ : (b : ℚ) ^ ((la : ℤ) - 1) ≤ (q.num : ℚ) := by
    have h1 : ((la : ℤ) - 1) = ((la - 1 : ℕ) : ℤ) := by omega
    rw [h1, natCast_zpow_eq, ← hnumQ]
    exact_mod_cast hLa
  have hUcQ : (q.den : ℚ) < (b : ℚ) ^ (lc : ℤ) := by
    rw [natCast_zpow_eq]
    exact_mod_cast hUc
  have hLcQ : (b : ℚ) ^ ((lc : ℤ) - 1) ≤ (q.den : ℚ) := by
    have h1 : ((lc : ℤ) - 1) = ((lc - 1 : ℕ) : ℤ) := by omega
    rw [h1, natCast_zpow_eq]
    exact_mod_cast hLc
  have hq_eq : q = (q.num : ℚ) / (q.den : ℚ) := (Rat.num_div_den q).symm
  -- q < b ^ (la - lc + 1)
  have claim1 : q < (b : ℚ) ^ ((la : ℤ) - (lc : ℤ) + 1) := by
    rw [hq_eq, div_lt_iff₀ hdenQ]
    calc (q.num : ℚ) < (b : ℚ) ^ (la : ℤ) := hUaQ
      _ = (b : ℚ) ^ ((la : ℤ) - (lc : ℤ) + 1) * (b : ℚ) ^ ((lc : ℤ) - 1) := by
          rw [← zpow_add₀ hbne]
          congr 1
          ring
      _ ≤ (b : ℚ) ^ ((la : ℤ) - (lc : ℤ) + 1) * (q.den : ℚ) := by
          apply mul_le_mul_of_nonneg_left hLcQ
          positivity
  -- b ^ (la - lc - 1) < q
  have claim2 : (b : ℚ) ^ ((la : ℤ) - (lc : ℤ) - 1) < q := by
    rw [hq_eq, lt_div_iff₀ hdenQ]
    calc (b : ℚ) ^ ((la : ℤ) - (lc : ℤ) - 1) * (q.den : ℚ)
        < (b : ℚ) ^ ((la : ℤ) - (lc : ℤ) - 1) * (b : ℚ) ^ (lc : ℤ) := by
          apply mul_lt_mul_of_pos_left hUcQ
          positivity
      _ = (b : ℚ) ^ ((la : ℤ) - 1) := by
          rw [← zpow_add₀ hbne]
          congr 1
          ring
      _ ≤ (q.num : ℚ) := hLaQ
  rw [qFloorLog]
  simp only [zpowQ_eq, ← hladef, ← hlcdef]
  by_cases hcase : (b : ℚ) ^ ((la : ℤ) - (lc : ℤ)) ≤ q
  · rw [if_pos hcase]
    exact ⟨hcase, claim1⟩
  · rw [if_neg hcase]
    constructor
    · exact le_of_lt claim2
    · have : (la : ℤ) - (lc : ℤ) - 1 + 1 = (la : ℤ) - (lc : ℤ) := by ring
      rw [this]
      exact lt_of_not_ge fun h => hcase h

/-! ### Properties of half-even rounding -/

theorem rhe_intCast (n : ℤ) : rhe (n : ℚ) = n := by
  rw [rhe, qFloor_eq]
  simp

theorem rhe_ge_floor (q : ℚ) : ⌊q⌋ ≤ rhe q := by
  rw [rhe, qFloor_eq]
  split_ifs <;> omega

theorem rhe_le_floor_add_one (q : ℚ) : rhe q ≤ ⌊q⌋ + 1 := by
  rw [rhe, qFloor_eq]
  split_ifs <;> omega

theorem rhe_nonneg {q : ℚ} (hq : 0 ≤ q) : 0 ≤ rhe q := by
  have := rhe_ge_floor q
  have h0 : (0 : ℤ) ≤ ⌊q⌋ := Int.floor_nonneg.mpr hq
  omega

theorem rhe_mono {x y : ℚ} (h : x ≤ y) : rhe x ≤ rhe y := by
  have hf : ⌊x⌋ ≤ ⌊y⌋ := Int.floor_le_floor h
  by_cases heq : ⌊x⌋ = ⌊y⌋
  · rw [rhe, rhe, qFloor_eq, qFloor_eq, heq]
    have hxy : x - (⌊y⌋ : ℚ) ≤ y - (⌊y⌋ : ℚ) := sub_le_sub_right h _
    by_cases h1 : x - (⌊y⌋ : ℚ) < 1/2
    · rw [if_pos h1]
      split_ifs <;> omega
    · rw [if_neg h1]
      have h1' : ¬(y - (⌊y⌋ : ℚ) < 1/2) := fun hy => h1 (lt_of_le_of_lt hxy hy)
      rw [if_neg h1']
      by_cases h2 : (1:ℚ)/2 < x - ⌊y⌋
      · rw [if_pos h2, if_pos (lt_of_lt_of_le h2 hxy)]
      · rw [if_neg h2]
        by_cases h2' : (1:ℚ)/2 < y - ⌊y⌋
        · rw [if_pos h2']
          split_ifs <;> omega
        · rw [if_neg h2']
  · have hlt : ⌊x⌋ < ⌊y⌋ := lt_of_le_of_ne hf heq
    calc rhe x ≤ ⌊x⌋ + 1 := rhe_le_floor_add_one x
      _ ≤ ⌊y⌋ := by omega
      _ ≤ rhe y := rhe_ge_floor y

/-! ### Properties of significant-digit rounding -/

theorem roundSigPos_eq (p : Nat) (q : ℚ) :
    roundSigPos p q =
      (rhe (q * (10:ℚ) ^ ((p:ℤ) - 1 - qFloorLog 10 q)) : ℚ) /
        (10:ℚ) ^ ((p:ℤ) - 1 - qFloorLog 10 q) := by
  rw [roundSigPos]
  simp only [zpowQ_eq]

theorem q10_zpow_natCast (k : Nat) : (10:ℚ) ^ (k : ℤ) = ((10 ^ k : ℕ) : ℚ) := by
  rw [zpow_natCast]
  push_cast
  ring

theorem roundSigPos_bounds (p : Nat) (hp : 1 ≤ p) (q : ℚ) (hq : 0 < q) :
    (10:ℚ) ^ qFloorLog 10 q ≤ roundSigPos p q ∧
    roundSigPos p q ≤ (10:ℚ) ^ (qFloorLog 10 q + 1) := by
  have hbne : (10:ℚ) ≠ 0 := by norm_num
  obtain ⟨hlo, hhi⟩ := qFloorLog_spec 10 (by norm_num) q hq
  push_cast at hlo hhi
  set e := qFloorLog 10 q with he
  set s : ℤ := (p:ℤ) - 1 - e with hs
  have hspow : (0:ℚ) < (10:ℚ) ^ s := by positivity
  have hm1 : (10:ℚ) ^ ((p:ℤ) - 1) ≤ q * (10:ℚ) ^ s := by
    calc (10:ℚ) ^ ((p:ℤ) - 1) = (10:ℚ) ^ e * (10:ℚ) ^ s := by
          rw [← zpow_add₀ hbne]
          congr 1
          omega
      _ ≤ q * (10:ℚ) ^ s := by
          apply mul_le_mul_of_nonneg_right hlo (le_of_lt hspow)
  have hm2 : q * (10:ℚ) ^ s < (10:ℚ) ^ (p:ℤ) := by
    calc q * (10:ℚ) ^ s < (10:ℚ) ^ (e + 1) * (10:ℚ) ^ s := by
          apply mul_lt_mul_of_pos_right hhi hspow
      _ = (10:ℚ) ^ (p:ℤ) := by
          rw [← zpow_add₀ hbne]
          congr 1
          omega
  -- integer casts of the two decimal powers
  have hP1 : (10:ℚ) ^ ((p:ℤ) - 1) = ((10 ^ (p - 1) : ℕ) : ℚ) := by
    rw [show ((p:ℤ) - 1) = ((p - 1 : ℕ) : ℤ) by omega, q10_zpow_natCast]
  have hP2 : (10:ℚ) ^ (p:ℤ) = ((10 ^ p : ℕ) : ℚ) := q10_zpow_natCast p
  set m : ℚ := q * (10:ℚ) ^ s with hm
  have hfloor_lo : ((10 ^ (p - 1) : ℕ) : ℤ) ≤ rhe m := by
    have h1 : ((10 ^ (p - 1) : ℕ) : ℤ) ≤ ⌊m⌋ := by
      apply Int.le_floor.mpr
      rw [show ((((10 ^ (p-1) : ℕ) : ℤ)) : ℚ) = ((10 ^ (p-1) : ℕ) : ℚ) by push_cast; ring,
        ← hP1]
      exact hm1
    have := rhe_ge_floor m
    omega
  have hfloor_hi : rhe m ≤ ((10 ^ p : ℕ) : ℤ) := by
    have h1 : ⌊m⌋ < ((10 ^ p : ℕ) : ℤ) := by
      apply Int.floor_lt.mpr
      rw [show ((((10 ^ p : ℕ) : ℤ)) : ℚ) = ((10 ^ p : ℕ) : ℚ) by push_cast; ring, ← hP2]
      exact hm2
    have := rhe_le_floor_add_one m
    omega
  rw [roundSigPos_eq, ← he, ← hs, ← hm]
  constructor
  · have hnum : (10:ℚ) ^ ((p:ℤ) - 1) ≤ (rhe m : ℚ) := by
      rw [hP1]
      exact_mod_cast hfloor_lo
    calc (10:ℚ) ^ e = (10:ℚ) ^ ((p:ℤ) - 1) / (10:ℚ) ^ s := by
          rw [← zpow_sub₀ hbne]
          congr 1
          omega
      _ ≤ (rhe m : ℚ) / (10:ℚ) ^ s := (div_le_div_right hspow).mpr hnum
  · have hnum : (rhe m : ℚ) ≤ (10:ℚ) ^ (p:ℤ) := by
      rw [hP2]
      exact_mod_cast hfloor_hi
    calc (rhe m : ℚ) / (10:ℚ) ^ s ≤ (10:ℚ) ^ (p:ℤ) / (10:ℚ) ^ s :=
          (div_le_div_right hspow).mpr hnum
      _ = (10:ℚ) ^ (e + 1) := by
          rw [← zpow_sub₀ hbne]
          congr 1
          omega

theorem roundSigPos_mono (p : Nat) (hp : 1 ≤ p) {x y : ℚ}
    (hx : 0 < x) (hxy : x ≤ y) : roundSigPos p x ≤ roundSigPos p y := by
  have hy : 0 < y := lt_of_lt_of_le hx hxy
  obtain ⟨hex, hex'⟩ := qFloorLog_spec 10 (by norm_num) x hx
  obtain ⟨hey, hey'⟩ := qFloorLog_spec 10 (by norm_num) y hy
  push_cast at hex hex' hey hey'
  have he : qFloorLog 10 x ≤ qFloorLog 10 y := by
    by_contra hcon
    push_neg at hcon
    have h1 : qFloorLog 10 y + 1 ≤ qFloorLog 10 x := by omega
    have h2 : (10:ℚ) ^ (qFloorLog 10 y + 1) ≤ (10:ℚ) ^ qFloorLog 10 x :=
      zpow_le_zpow_right₀ (by norm_num) h1
    linarith
  rcases eq_or_lt_of_le he with heq | hlt
  · rw [roundSigPos_eq, roundSigPos_eq, ← heq]
    have hspow : (0:ℚ) < (10:ℚ) ^ ((p:ℤ) - 1 - qFloorLog 10 x) := by positivity
    apply (div_le_div_right hspow).mpr
    exact_mod_cast rhe_mono (mul_le_mul_of_nonneg_right hxy (le_of_lt hspow))
  · calc roundSigPos p x ≤ (10:ℚ) ^ (qFloorLog 10 x + 1) :=
          (roundSigPos_bounds p hp x hx).2
      _ ≤ (10:ℚ) ^ qFloorLog 10 y := zpow_le_zpow_right₀ (by norm_num) (by omega)
      _ ≤ roundSigPos p y := (roundSigPos_bounds p hp y hy).1

theorem roundSig_zero (p : Nat) : roundSig p 0 = 0 := by
  rw [roundSig, if_pos rfl]

theorem roundSig_nonneg (p : Nat) (hp : 1 ≤ p) {q : ℚ} (hq : 0 ≤ q) :
    0 ≤ roundSig p q := by
  rcases eq_or_lt_of_le hq with h0 | hpos
  · rw [← h0, roundSig_zero]
  · rw [roundSig, if_neg (ne_of_gt hpos), if_neg (not_lt.mpr hq)]
    have := (roundSigPos_bounds p hp q hpos).1
    have hgt : (0:ℚ) < (10:ℚ) ^ qFloorLog 10 q := by positivity
    linarith

theorem roundSig_mono (p : Nat) (hp : 1 ≤ p) {x y : ℚ}
    (hx : 0 ≤ x) (hxy : x ≤ y) : roundSig p x ≤ roundSig p y := by
  rcases eq_or_lt_of_le hx with h0 | hpos
  · rw [← h0, roundSig_zero]
    exact roundSig_nonneg p hp (le_trans hx hxy)
  · have hy : 0 < y := lt_of_lt_of_le hpos hxy
    rw [roundSig, roundSig, if_neg (ne_of_gt hpos), if_neg (not_lt.mpr (le_of_lt hpos)),
      if_neg (ne_of_gt hy), if_neg (not_lt.mpr (le_of_lt hy))]
    exact roundSigPos_mono p hp hpos hxy

theorem roundSig_natCast (p : Nat) (hp : 1 ≤ p) (m : Nat) (hm : m < 10 ^ p) :
    roundSig p (m : ℚ) = m := by
  rcases Nat.eq_zero_or_pos m with h0 | hpos
  · subst h0
    simpa using roundSig_zero p
  · have hmQ : (0:ℚ) < (m : ℚ) := by exact_mod_cast hpos
    rw [roundSig, if_neg (ne_of_gt hmQ), if_neg (not_lt.mpr (le_of_lt hmQ))]
    obtain ⟨hlo, hhi⟩ := qFloorLog_spec 10 (by norm_num) (m : ℚ) hmQ
    push_cast at hlo hhi
    set e := qFloorLog 10 (m : ℚ) with hedef
    have he0 : 0 ≤ e := by
      by_contra hcon
      push_neg at hcon
      have h1 : e + 1 ≤ 0 := by omega
      have h2 : (10:ℚ) ^ (e + 1) ≤ (10:ℚ) ^ (0:ℤ) := zpow_le_zpow_right₀ (by norm_num) h1
      rw [zpow_zero] at h2
      have h3 : (1:ℚ) ≤ (m:ℚ) := by exact_mod_cast hpos
      linarith
    have hep : e < (p:ℤ) := by
      by_contra hcon
      push_neg at hcon
      have h2 : (10:ℚ) ^ (p:ℤ) ≤ (10:ℚ) ^ e := zpow_le_zpow_right₀ (by norm_num) hcon
      have h3 : ((10 ^ p : ℕ) : ℚ) ≤ (m : ℚ) := by
        rw [← q10_zpow_natCast]
        linarith
      have h4 : (10:ℕ) ^ p ≤ m := by exact_mod_cast h3
      omega
    have hs0 : 0 ≤ (p:ℤ) - 1 - e := by omega
    rw [roundSigPos_eq, ← hedef]
    set s : ℤ := (p:ℤ) - 1 - e with hsdef
    have hcast : (m : ℚ) * (10:ℚ) ^ s = ((m * 10 ^ s.toNat : ℕ) : ℚ) := by
      have hsEq : (s.toNat : ℤ) = s := by omega
      calc (m:ℚ) * (10:ℚ) ^ s = (m:ℚ) * (10:ℚ) ^ ((s.toNat : ℤ)) := by rw [hsEq]
        _ = (m:ℚ) * ((10 ^ s.toNat : ℕ) : ℚ) := by rw [q10_zpow_natCast]
        _ = ((m * 10 ^ s.toNat : ℕ) : ℚ) := by push_cast; ring
    have hspow : ((10:ℚ) ^ s) ≠ 0 := by positivity
    rw [hcast]
    rw [show (((m * 10 ^ s.toNat : ℕ) : ℚ)) = (((m * 10 ^ s.toNat : ℕ) : ℤ) : ℚ) by
      push_cast; ring]
    rw [rhe_intCast, Int.cast_natCast, ← hcast]
    rw [mul_div_assoc, div_self hspow, mul_one]

/-! ### Concrete evaluations and small algebraic facts -/

set_option maxRecDepth 40000

theorem round2dec_zero : round2dec 0 = 0 := by with_unfolding_all decide

theorem round2dec_100 : round2dec 100 = 100 := by with_unfolding_all decide

theorem roundSig28_one : roundSig 28 1 = 1 := by with_unfolding_all decide

theorem fl_one : fl 1 = 1 := by with_unfolding_all decide

theorem fl_100 : fl 100 = 100 := by with_unfolding_all decide

theorem pyRound2_100 : pyRound2 100 = 100 := by with_unfolding_all decide

theorem toWei_wei_zero : toWei_wei 0 = .ok 0 := by with_unfolding_all decide

theorem decMul_zero (x : ℚ) : decMul x 0 = 0 := by
  rw [decMul, mul_zero, roundSig_zero]

theorem decDiv_zero_100 : decDiv 0 100 = 0 := by
  rw [decDiv, zero_div, roundSig_zero]

theorem decSub_one_zero : decSub 1 0 = 1 := by
  rw [decSub, sub_zero, roundSig28_one]

theorem decAdd_one_zero : decAdd 1 0 = 1 := by
  rw [decAdd, add_zero, roundSig28_one]

theorem decDiv_100_100 : decDiv 100 100 = 1 := by
  rw [decDiv, show (100:ℚ)/100 = 1 by norm_num, roundSig28_one]

theorem decSub_one_one : decSub 1 1 = 0 := by
  rw [decSub, sub_self, roundSig_zero]

theorem MAX_WEI_big : 10 ^ 28 ≤ MAX_WEI := by
  rw [MAX_WEI]
  have h1 : (10:ℕ) ^ 28 ≤ 16 ^ 28 := Nat.pow_le_pow_left (by norm_num) 28
  have h2 : (16:ℕ) ^ 28 = 2 ^ 112 := by norm_num [← pow_mul]
  have h3 : (2:ℕ) ^ 112 ≤ 2 ^ 255 := Nat.pow_le_pow_right (by norm_num) (by norm_num)
  have h4 : (2:ℕ) ^ 255 < 2 ^ 256 := Nat.pow_lt_pow_right (by norm_num) (by norm_num)
  omega

theorem lt_ten_pow_999 {m : Nat} (hm : m ≤ MAX_WEI) : m < 10 ^ 999 := by
  rw [MAX_WEI] at hm
  have h1 : (2:ℕ) ^ 256 ≤ 10 ^ 256 := Nat.pow_le_pow_left (by norm_num) 256
  have h2 : (10:ℕ) ^ 256 ≤ 10 ^ 999 := Nat.pow_le_pow_right (by norm_num) (by norm_num)
  omega

theorem w3Round_natCast (m : Nat) (hm : m < 10 ^ 999) : w3Round (m : ℚ) = m :=
  roundSig_natCast 999 (by norm_num) m hm

theorem toWei_wei_natCast (m : Nat) (hm : m ≤ MAX_WEI) : toWei_wei (m : ℚ) = .ok m := by
  rw [toWei_wei, w3Round_natCast m (lt_ten_pow_999 hm)]
  have hcond : ¬((m : ℚ) < 0 ∨ (MAX_WEI : ℚ) < m) := by
    push_neg
    exact ⟨by positivity, by exact_mod_cast hm⟩
  rw [if_neg hcond]
  norm_num

theorem fromWei_wei_in_range (m : Nat) (hm : m ≤ MAX_WEI) :
    fromWei_wei m = .ok (m : ℚ) := by
  rw [fromWei_wei]
  by_cases h0 : m = 0
  · subst h0
    simp
  · rw [if_neg h0, if_neg (not_lt.mpr hm), w3Round_natCast m (lt_ten_pow_999 hm)]

theorem fromWei_wei_nonneg {m : Nat} {q : ℚ} (h : fromWei_wei m = .ok q) : 0 ≤ q := by
  rw [fromWei_wei] at h
  by_cases h0 : m = 0
  · rw [if_pos h0] at h
    injection h with h'
    exact le_of_eq h'
  · rw [if_neg h0] at h
    by_cases hM : MAX_WEI < m
    · rw [if_pos hM] at h
      exact Except.noConfusion h
    · rw [if_neg hM] at h
      injection h with h'
      rw [← h', w3Round]
      exact roundSig_nonneg 999 (by norm_num) (by positivity)

theorem toWei_wei_ok {q : ℚ} {v : ℤ} (h : toWei_wei q = .ok v) : v = ⌊w3Round q⌋ := by
  rw [toWei_wei] at h
  by_cases hc : w3Round q < 0 ∨ (MAX_WEI : ℚ) < w3Round q
  · rw [if_pos hc] at h
    cases h
  · rw [if_neg hc] at h
    cases h
    rfl

theorem round2dec_mono {x y : ℚ} (h : x ≤ y) : round2dec x ≤ round2dec y := by
  rw [round2dec, round2dec]
  have h1 : rhe (x * 100) ≤ rhe (y * 100) := rhe_mono (by linarith)
  have h2 : ((rhe (x * 100) : ℤ) : ℚ) ≤ ((rhe (y * 100) : ℤ) : ℚ) := by exact_mod_cast h1
  exact (div_le_div_right (by norm_num : (0:ℚ) < 100)).mpr h2

/-- C5 counterexample.  `calculate_min_slippage_amount` violates the claim at
two concrete inputs: at `amount = 10^28 + 1` and slippage `0` it returns
`10^28` (the default `Decimal` context has 28 significant digits), not the
amount; and it is not monotone non-increasing in the slippage, returning `0`
at `(4, 1)` but `3` at `(4, 25)` (the not-enough-tokens guard fires at the
smaller slippage only). -/
theorem slippage_claim_violations :
    calculate_min_slippage_amount (10 ^ 28 + 1) 0 = .ok (10 ^ 28) ∧
    ((10 ^ 28 : ℤ) ≠ ((10 ^ 28 + 1 : ℕ) : ℤ)) ∧
    calculate_min_slippage_amount 4 1 = .ok 0 ∧
    calculate_min_slippage_amount 4 25 = .ok 3 ∧
    (1 : ℚ) ≤ 25 ∧ (0 : ℤ) < 3 := by
  refine ⟨by with_unfolding_all decide, by decide, by with_unfolding_all decide,
    by with_unfolding_all decide, by norm_num, by norm_num⟩

theorem calculate_min_slippage_amount_eq (amount : Nat) (slippage : ℚ) :
    calculate_min_slippage_amount amount slippage =
      match fromWei_wei amount with
      | .error e => .error e
      | .ok fw =>
          match toWei_wei (decMul fw (decSub 1 (decDiv (round2dec slippage) 100))) with
          | .error e => .error e
          | .ok slippaged =>
              if pyGt (_get_change slippaged (amount : ℤ)) (round2dec slippage) then .ok 0
              else .ok slippaged := rfl

theorem calculate_max_slippage_amount_eq (amount : Nat) (slippage : ℚ) :
    calculate_max_slippage_amount amount slippage =
      match fromWei_wei amount with
      | .error e => .error e
      | .ok fw => toWei_wei (decMul fw (decAdd 1 (decDiv (round2dec slippage) 100))) := rfl

theorem calculate_min_slippage_fw (amount : Nat) (slippage : ℚ) (fw : ℚ)
    (hfw : fromWei_wei amount = .ok fw) :
    calculate_min_slippage_amount amount slippage =
      match toWei_wei (decMul fw (decSub 1 (decDiv (round2dec slippage) 100))) with
      | .error e => .error e
      | .ok slippaged =>
          if pyGt (_get_change slippaged (amount : ℤ)) (round2dec slippage) then .ok 0
          else .ok slippaged := by
  rw [calculate_min_slippage_amount_eq, hfw]

theorem calculate_min_slippage_err (amount : Nat) (slippage : ℚ) (e : PyErr)
    (hfw : fromWei_wei amount = .error e) :
    calculate_min_slippage_amount amount slippage = .error e := by
  rw [calculate_min_slippage_amount_eq, hfw]

theorem calculate_max_slippage_fw (amount : Nat) (slippage : ℚ) (fw : ℚ)
    (hfw : fromWei_wei amount = .ok fw) :
    calculate_max_slippage_amount amount slippage =
      toWei_wei (decMul fw (decAdd 1 (decDiv (round2dec slippage) 100))) := by
  rw [calculate_max_slippage_amount_eq, hfw]

theorem calculate_max_slippage_err (amount : Nat) (slippage : ℚ) (e : PyErr)
    (hfw : fromWei_wei amount = .error e) :
    calculate_max_slippage_amount amount slippage = .error e := by
  rw [calculate_max_slippage_amount_eq, hfw]

theorem round2dec_nonneg {x : ℚ} (h : 0 ≤ x) : 0 ≤ round2dec x := by
  rw [round2dec]
  have h1 : 0 ≤ rhe (x * 100) := rhe_nonneg (by positivity)
  have h2 : (0:ℚ) ≤ (rhe (x * 100) : ℚ) := by exact_mod_cast h1
  apply div_nonneg h2
  norm_num

/-- C5 (amended).  For amounts below `10^28` (28 significant decimal digits,
the default `Decimal` context precision) both functions are the identity at
slippage `0`; `calculate_min_slippage_amount(amount, 100) = 0` for every
amount inside `Web3.fromWei`'s accepted range `[0, 2^256 - 1]`, while an
amount above that bound makes `fromWei` raise `ValueError` before any
arithmetic at every slippage; and the maximum-paid result is monotone
non-decreasing in the slippage.  The minimum-received result is *not*
monotone (see the counterexample): its not-enough-tokens guard can return
`0` at a small slippage and a positive amount at a larger one. -/
theorem slippage_endpoints_max_monotone (amount : Nat) (s t : ℚ) :
    (amount < 10 ^ 28 → calculate_min_slippage_amount amount 0 = .ok amount) ∧
    (amount ≤ MAX_WEI → calculate_min_slippage_amount amount 100 = .ok 0) ∧
    (MAX_WEI < amount →
      calculate_min_slippage_amount amount s = .error .valueError ∧
      calculate_max_slippage_amount amount s = .error .valueError) ∧
    (amount < 10 ^ 28 → calculate_max_slippage_amount amount 0 = .ok amount) ∧
    (0 ≤ s → s ≤ t → ∀ v w : ℤ,
      calculate_max_slippage_amount amount s = .ok v →
      calculate_max_slippage_amount amount t = .ok w → v ≤ w) := by
  have hMAX28 : ∀ m : Nat, m < 10 ^ 28 → m ≤ MAX_WEI := fun m hm =>
    le_trans (by omega) MAX_WEI_big
  have hch0 : ∀ z : ℤ, _get_change z z = .finite 0 := fun z => by
    rw [_get_change, if_pos rfl]
  have hgt00 : pyGt (.finite 0) 0 = false := by
    rw [pyGt, decide_eq_false_iff_not]
    norm_num
  refine ⟨?_, ?_, ?_, ?_, ?_⟩
  · intro h28
    have hMW := hMAX28 amount h28
    have hFW : fromWei_wei amount = .ok ((amount : ℕ) : ℚ) :=
      fromWei_wei_in_range amount hMW
    have hmul : decMul ((amount : ℕ) : ℚ) 1 = ((amount : ℕ) : ℚ) := by
      rw [decMul, mul_one]
      exact roundSig_natCast 28 (by norm_num) amount h28
    have hArg : toWei_wei (decMul ((amount : ℕ) : ℚ)
        (decSub 1 (decDiv (round2dec 0) 100))) = .ok (amount : ℤ) := by
      rw [round2dec_zero, decDiv_zero_100, decSub_one_zero, hmul]
      exact toWei_wei_natCast amount hMW
    calc calculate_min_slippage_amount amount 0
        = if pyGt (_get_change (amount : ℤ) (amount : ℤ)) (round2dec 0) then .ok 0
          else .ok (amount : ℤ) := by
          rw [calculate_min_slippage_fw amount 0 _ hFW, hArg]
      _ = .ok (amount : ℤ) := by
          rw [hch0, round2dec_zero, hgt00]
          simp
  · intro hMW
    have hFW : fromWei_wei amount = .ok ((amount : ℕ) : ℚ) :=
      fromWei_wei_in_range amount hMW
    have hArg : toWei_wei (decMul ((amount : ℕ) : ℚ)
        (decSub 1 (decDiv (round2dec 100) 100))) = .ok 0 := by
      rw [round2dec_100, decDiv_100_100, decSub_one_one, decMul_zero]
      exact toWei_wei_zero
    have hguard : pyGt (_get_change 0 (amount : ℤ)) (round2dec 100) = false := by
      rw [round2dec_100]
      by_cases ha : amount = 0
      · subst ha
        rw [show ((0 : ℕ) : ℤ) = 0 by rfl, hch0, pyGt, decide_eq_false_iff_not]
        norm_num
      · have hne : (0 : ℤ) ≠ (amount : ℤ) := fun hcon =>
          ha (by exact_mod_cast hcon.symm)
        rw [_get_change, if_neg hne, if_neg (Ne.symm hne)]
        push_cast
        rw [zero_sub, abs_neg,
          abs_of_nonneg (by positivity : (0:ℚ) ≤ ((amount : ℕ) : ℚ))]
        have hQne : ((amount : ℕ) : ℚ) ≠ 0 := Nat.cast_ne_zero.mpr ha
        rw [fdiv, div_self hQne, fl_one, fmul, one_mul, fl_100, pyRound2_100, pyGt,
          decide_eq_false_iff_not]
        norm_num
    calc calculate_min_slippage_amount amount 100
        = if pyGt (_get_change 0 (amount : ℤ)) (round2dec 100) then .ok 0
          else .ok 0 := by
          rw [calculate_min_slippage_fw amount 100 _ hFW, hArg]
      _ = .ok 0 := by
          rw [hguard]
          simp
  · intro hMW
    have h0 : amount ≠ 0 := by
      intro h
      rw [h] at hMW
      exact Nat.not_lt_zero MAX_WEI hMW
    have hFW : fromWei_wei amount = .error .valueError := by
      rw [fromWei_wei, if_neg h0, if_pos hMW]
    exact ⟨calculate_min_slippage_err amount s .valueError hFW,
      calculate_max_slippage_err amount s .valueError hFW⟩
  · intro h28
    have hMW := hMAX28 amount h28
    have hFW : fromWei_wei amount = .ok ((amount : ℕ) : ℚ) :=
      fromWei_wei_in_range amount hMW
    have hmul : decMul ((amount : ℕ) : ℚ) 1 = ((amount : ℕ) : ℚ) := by
      rw [decMul, mul_one]
      exact roundSig_natCast 28 (by norm_num) amount h28
    rw [calculate_max_slippage_fw amount 0 _ hFW, round2dec_zero, decDiv_zero_100,
      decAdd_one_zero, hmul]
    exact toWei_wei_natCast amount hMW
  · intro hs hst v w hv hw
    cases hFWc : fromWei_wei amount with
    | error e =>
        rw [calculate_max_slippage_err amount s e hFWc] at hv
        exact Except.noConfusion hv
    | ok fw =>
        rw [calculate_max_slippage_fw amount s fw hFWc] at hv
        rw [calculate_max_slippage_fw amount t fw hFWc] at hw
        have h100 : (0:ℚ) < 100 := by norm_num
        have h1s : 0 ≤ round2dec s := round2dec_nonneg hs
        have h1 : round2dec s ≤ round2dec t := round2dec_mono hst
        have h2s : 0 ≤ decDiv (round2dec s) 100 := by
          rw [decDiv]
          exact roundSig_nonneg 28 (by norm_num) (by positivity)
        have h2 : decDiv (round2dec s) 100 ≤ decDiv (round2dec t) 100 := by
          rw [decDiv, decDiv]
          exact roundSig_mono 28 (by norm_num) (by positivity)
            ((div_le_div_right h100).mpr h1)
        have h3s : 0 ≤ decAdd 1 (decDiv (round2dec s) 100) := by
          rw [decAdd]
          exact roundSig_nonneg 28 (by norm_num) (by linarith)
        have h3 : decAdd 1 (decDiv (round2dec s) 100) ≤
            decAdd 1 (decDiv (round2dec t) 100) := by
          rw [decAdd, decAdd]
          exact roundSig_mono 28 (by norm_num) (by linarith) (by linarith)
        have hfw0 : 0 ≤ fw := fromWei_wei_nonneg hFWc
        have h4s : 0 ≤ decMul fw (decAdd 1 (decDiv (round2dec s) 100)) := by
          rw [decMul]
          exact roundSig_nonneg 28 (by norm_num) (mul_nonneg hfw0 h3s)
        have h4 : decMul fw (decAdd 1 (decDiv (round2dec s) 100)) ≤
            decMul fw (decAdd 1 (decDiv (round2dec t) 100)) := by
          rw [decMul, decMul]
          exact roundSig_mono 28 (by norm_num) (mul_nonneg hfw0 h3s)
            (mul_le_mul_of_nonneg_left h3 hfw0)
        have h5 : w3Round (decMul fw (decAdd 1 (decDiv (round2dec s) 100))) ≤
            w3Round (decMul fw (decAdd 1 (decDiv (round2dec t) 100))) := by
          rw [w3Round, w3Round]
          exact roundSig_mono 999 (by norm_num) h4s h4
        rw [toWei_wei_ok hv, toWei_wei_ok hw]
        exact Int.floor_le_floor h5

/-- Witness for C5 (amended) at `amount = 5` (slippages `0`, `1` and `100`)
and at the out-of-range `amount = 2^256`. -/
theorem slippage_endpoints_max_monotone_witness :
    calculate_min_slippage_amount 5 0 = .ok 5 ∧
    calculate_min_slippage_amount 5 100 = .ok 0 ∧
    calculate_min_slippage_amount (2 ^ 256) 1 = .error .valueError ∧
    calculate_max_slippage_amount (2 ^ 256) 1 = .error .valueError ∧
    calculate_max_slippage_amount 5 0 = .ok 5 ∧
    (5 : ℤ) ≤ 5 := by
  have h := slippage_endpoints_max_monotone 5 0 1
  have hbig := slippage_endpoints_max_monotone (2 ^ 256) 1 1
  have hover : MAX_WEI < 2 ^ 256 := by
    rw [MAX_WEI]
    exact Nat.sub_lt (Nat.two_pow_pos 256) (by norm_num)
  refine ⟨h.1 (by norm_num), h.2.1 (le_trans (by norm_num) MAX_WEI_big),
    (hbig.2.2.1 hover).1, (hbig.2.2.1 hover).2, h.2.2.2.1 (by norm_num), ?_⟩
  exact h.2.2.2.2 (by norm_num) (by norm_num) 5 5
    (h.2.2.2.1 (by norm_num))
    (by with_unfolding_all decide)

/-! ## C10: add_0lt is idempotent and always yields the 0lt prefix -/

/-- C10.  `add_0lt` is idempotent, its result always starts with `0lt`, and an
input already carrying the prefix is returned unchanged. -/
theorem add_0lt_idempotent (a : PyStr) :
    add_0lt (add_0lt a) = add_0lt a ∧
    oltTag.isPrefixOf (add_0lt a) = true ∧
    (oltTag.isPrefixOf a = true → add_0lt a = a) := by
  by_cases h : oltTag.isPrefixOf a
  · simp [add_0lt, h]
  · have hpre : oltTag.isPrefixOf (oltTag ++ a) = true := by
      rw [List.isPrefixOf_iff_prefix]
      exact List.prefix_append _ _
    constructor
    · simp [add_0lt, h, hpre]
    · constructor
      · simp [add_0lt, h, hpre]
      · intro hcontra
        exact absurd hcontra (by simp [h])

/-- Witness for C10 at concrete inputs, including one already prefixed. -/
theorem add_0lt_idempotent_witness :
    add_0lt (add_0lt (pyStr "0ltab12")) = add_0lt (pyStr "0ltab12") ∧
    oltTag.isPrefixOf (add_0lt (pyStr "ab12")) = true ∧
    add_0lt (pyStr "0ltab12") = pyStr "0ltab12" := by
  refine ⟨(add_0lt_idempotent (pyStr "0ltab12")).1,
    (add_0lt_idempotent (pyStr "ab12")).2.1,
    (add_0lt_idempotent (pyStr "0ltab12")).2.2 (by decide)⟩

end Oneswap
